import Mathlib

/-! # ftracker: a verification development

Shallow embedding of `src/ftracker/ftracker.go` (package `ftracker`).

Two number models.

The first, `F64`, reads the formulas of the program over exact numbers: a value is an exact
rational, or one of `+Inf`, `-Inf`, `NaN`.  Arithmetic on finite values is exact (binary
rounding, overflow to infinity and the sign of zero are not modelled); the non-finite cases
of `+`, `*`, `/`, `==`, `<=` and `math.Pow` follow IEEE-754 as Go implements it, so that a
division by zero yields an infinity or `NaN` exactly where the Go program produces one.
It carries the properties that hold of the program's expressions as they are written: the
shape of the formulas, the dispatch, the guards, the template of the report.

The second, `B64`, is `float64` bit for bit: every operation is rounded to the nearest
representable number (ties to even), overflows to an infinity, underflows to a signed zero.
The namespace `Ieee` holds the program over it.  It carries the properties that rounding,
overflow or the sign of zero decide.

Go's `int` is embedded as `Int` (the program never does integer arithmetic, it only converts
to `float64`); where the 64 bits matter the range is a hypothesis.  Go's `string` is embedded
as `String`.
-/

namespace Ftracker

/-- Values of Go's `float64`: a finite value, `+Inf`, `-Inf` or `NaN`. -/
inductive F64 where
  | fin (q : ℚ)
  | pinf
  | ninf
  | nan
  deriving DecidableEq

namespace F64

/-- Go's `x + y` on `float64`. -/
def add : F64 → F64 → F64
  | nan, _ => nan
  | _, nan => nan
  | pinf, ninf => nan
  | ninf, pinf => nan
  | pinf, _ => pinf
  | _, pinf => pinf
  | ninf, _ => ninf
  | _, ninf => ninf
  | fin a, fin b => fin (a + b)

/-- The infinity with the sign of the rational `q` times `+Inf`; `NaN` when `q = 0`. -/
def scaleInf (q : ℚ) : F64 :=
  if q = 0 then nan else if 0 < q then pinf else ninf

/-- Go's unary minus on `float64`. -/
def neg : F64 → F64
  | fin a => fin (-a)
  | pinf => ninf
  | ninf => pinf
  | nan => nan

/-- Go's `x * y` on `float64`. -/
def mul : F64 → F64 → F64
  | nan, _ => nan
  | _, nan => nan
  | pinf, pinf => pinf
  | pinf, ninf => ninf
  | ninf, pinf => ninf
  | ninf, ninf => pinf
  | pinf, fin b => scaleInf b
  | ninf, fin b => neg (scaleInf b)
  | fin a, pinf => scaleInf a
  | fin a, ninf => neg (scaleInf a)
  | fin a, fin b => fin (a * b)

/-- Go's `x / y` on `float64`: a finite non-zero value over zero is an infinity,
zero over zero is `NaN`, a finite value over an infinity is zero. -/
def div : F64 → F64 → F64
  | nan, _ => nan
  | _, nan => nan
  | pinf, pinf => nan
  | pinf, ninf => nan
  | ninf, pinf => nan
  | ninf, ninf => nan
  | pinf, fin b => if 0 ≤ b then pinf else ninf
  | ninf, fin b => if 0 ≤ b then ninf else pinf
  | fin _, pinf => fin 0
  | fin _, ninf => fin 0
  | fin a, fin b => if b = 0 then scaleInf a else fin (a / b)

/-- Go's `x == y` on `float64`: `NaN` equals nothing, itself included. -/
def beq : F64 → F64 → Bool
  | fin a, fin b => decide (a = b)
  | pinf, pinf => true
  | ninf, ninf => true
  | _, _ => false

/-- Go's `x <= y` on `float64`: false as soon as one side is `NaN`. -/
def le : F64 → F64 → Bool
  | nan, _ => false
  | _, nan => false
  | ninf, _ => true
  | _, pinf => true
  | pinf, _ => false
  | _, ninf => false
  | fin a, fin b => decide (a ≤ b)

/-- Go's conversion `float64(n)` of an `int`. -/
def ofInt (n : Int) : F64 := fin (n : ℚ)

/-- Go's `math.Pow(x, y)` for an exponent `y` that is a natural number:
`Pow(x, 0) = 1` for every `x`, `Pow(NaN, y) = NaN`, `Pow(+Inf, y) = +Inf`,
`Pow(-Inf, y)` is `-Inf` for odd `y` and `+Inf` otherwise. -/
def mathPow (x : F64) (y : Nat) : F64 :=
  if y = 0 then fin 1 else
  match x with
  | fin a => fin (a ^ y)
  | pinf => pinf
  | ninf => if y % 2 = 1 then ninf else pinf
  | nan => nan

instance : Add F64 := ⟨add⟩
instance : Mul F64 := ⟨mul⟩
instance : Div F64 := ⟨div⟩

/-- The value is finite (neither an infinity nor `NaN`). -/
def isFinite : F64 → Bool
  | fin _ => true
  | _ => false

end F64

open F64

/-! ## Constants (`ftracker.go`, lines 9-34)

The constants are untyped in Go and take the type `float64` where they are used. -/

/-- Mean length of a step, in metres. -/
def lenStep : F64 := fin 0.65
/-- Metres in a kilometre. -/
def mInKm : F64 := fin 1000
/-- Minutes in an hour. -/
def minInH : F64 := fin 60
/-- Factor converting km/h to m/s. -/
def kmhInMSec : F64 := fin 0.278
/-- Centimetres in a metre. -/
def cmInM : F64 := fin 100

/-- Multiplier of the mean speed (running). -/
def runningCaloriesMeanSpeedMultiplier : F64 := fin 18
/-- The constant named "shift" of the running formula. -/
def runningCaloriesMeanSpeedShift : F64 := fin 1.79

/-- Multiplier of the body weight (walking). -/
def walkingCaloriesWeightMultiplier : F64 := fin 0.035
/-- Multiplier of the speed-over-height term (walking). -/
def walkingSpeedHeightMultiplier : F64 := fin 0.029

/-- Shift of the mean speed (swimming). -/
def swimmingCaloriesMeanSpeedShift : F64 := fin 1.1
/-- Multiplier of the weight (swimming). -/
def swimmingCaloriesWeightMultiplier : F64 := fin 2

/-! ## Functions -/

/-- `distance` (lines 41-43): `float64(action) * lenStep / mInKm`. -/
def distance (action : Int) : F64 :=
  F64.ofInt action * lenStep / mInKm

/-- `meanSpeed` (lines 51-56). -/
def meanSpeed (distance duration : F64) : F64 :=
  if F64.beq duration (fin 0) then fin 0
  else distance / duration

/-- `swimmingMeanSpeed` (lines 65-70). -/
def swimmingMeanSpeed (lengthPool countPool : Int) (duration : F64) : F64 :=
  if F64.beq duration (fin 0) then fin 0
  else F64.ofInt lengthPool * F64.ofInt countPool / mInKm / duration

/-- `runningSpentCalories` (lines 79-81). -/
def runningSpentCalories (weight duration speed : F64) : F64 :=
  (runningCaloriesMeanSpeedMultiplier * speed * runningCaloriesMeanSpeedShift)
    * weight / mInKm * duration * minInH

/-- `walkingSpentCalories` (lines 91-95). -/
def walkingSpentCalories (duration weight height speed : F64) : F64 :=
  let speedInMSec := speed * kmhInMSec
  let heightInM := height / fin 100
  ((walkingCaloriesWeightMultiplier * weight)
    + ((F64.mathPow speedInMSec 2 / heightInM) * walkingSpeedHeightMultiplier * weight))
    * duration * minInH

/-- `swimmingSpentCalories` (lines 104-106). -/
def swimmingSpentCalories (duration weight speed : F64) : F64 :=
  (speed + swimmingCaloriesMeanSpeedShift) * swimmingCaloriesWeightMultiplier * weight * duration

/-! ## The report (`showTrainingInfo`, lines 115-136) -/

/-- Nearest integer to `q`, a tie going to the even neighbour: the rounding that
Go's `strconv` applies to the exact value when it formats with a fixed precision. -/
def roundHalfEven (q : ℚ) : Int :=
  let f := ⌊q⌋
  let r := q - f
  if r < 1 / 2 then f
  else if 1 / 2 < r then f + 1
  else if f % 2 = 0 then f else f + 1

/-- The value `q` rounded to two decimals. -/
def roundTo2 (q : ℚ) : ℚ := (roundHalfEven (q * 100) : ℚ) / 100

/-- Go's verb `%.2f` of package `fmt` applied to a `float64`: `NaN`, `+Inf`, `-Inf` for
the non-finite values, otherwise an optional minus sign, the integer part in decimal,
a point and two digits. -/
def formatFixed2 : F64 → String
  | nan => "NaN"
  | pinf => "+Inf"
  | ninf => "-Inf"
  | fin q =>
    let n := (roundHalfEven (|q| * 100)).toNat
    (if q < 0 then "-" else "") ++ toString (n / 100) ++ "."
      ++ String.mk [Nat.digitChar (n / 10 % 10), Nat.digitChar (n % 10)]

/-- The call `fmt.Sprintf(format, trainingType, duration, distance, speed, calories)` with
the format string of lines 122, 127 and 132 (the same string in the three cases):
`%s` copies the string, each `%.2f` is `formatFixed2`. -/
def sprintfReport (trainingType : String) (duration distance speed calories : F64) : String :=
  "Тип тренировки: " ++ trainingType
    ++ "\nДлительность: " ++ formatFixed2 duration
    ++ " ч.\nДистанция: " ++ formatFixed2 distance
    ++ " км.\nСкорость: " ++ formatFixed2 speed
    ++ " км/ч\nСожгли калорий: " ++ formatFixed2 calories ++ "\n"

/-- `showTrainingInfo` (lines 115-136): a `switch` on the training type. -/
def showTrainingInfo (action : Int) (trainingType : String) (duration weight height : F64)
    (lengthPool countPool : Int) : String :=
  if trainingType = "Бег" then
    let dist := distance action
    let speed := meanSpeed dist duration
    let calories := runningSpentCalories weight duration speed
    sprintfReport trainingType duration dist speed calories
  else if trainingType = "Ходьба" then
    let dist := distance action
    let speed := meanSpeed dist duration
    let calories := walkingSpentCalories duration weight height speed
    sprintfReport trainingType duration dist speed calories
  else if trainingType = "Плавание" then
    let dist := distance action
    let speed := swimmingMeanSpeed lengthPool countPool duration
    let calories := swimmingSpentCalories duration weight speed
    sprintfReport trainingType duration dist speed calories
  else
    "неизвестный тип тренировки"

/-! ## The running formula as the specification words it -/

/-- The running formula of section 4.4 of the specification,
`(18 × meanSpeedKmh + 1.79) × weightKg / 1000 × durationHours × 60`, written with the
constants of the source.  It follows the specification's words, not the source; the source's
function is `runningSpentCalories`. -/
def runningSpentCaloriesSpec (weight duration speed : F64) : F64 :=
  (runningCaloriesMeanSpeedMultiplier * speed + runningCaloriesMeanSpeedShift)
    * weight / mInKm * duration * minInH

/-! ## Reading a rendered number -/

/-- The characters are one or more decimal digits. -/
def isDigits (cs : List Char) : Bool :=
  !cs.isEmpty && cs.all Char.isDigit

/-- The text is a decimal numeral with exactly two digits after the point: an optional
minus sign, one or more digits, one point, two digits, and nothing else. -/
def isFixed2 (s : String) : Bool :=
  match s.data.reverse with
  | d2 :: d1 :: '.' :: rest =>
    d2.isDigit && d1.isDigit &&
      (match rest.reverse with
       | '-' :: ds => isDigits ds
       | ds => isDigits ds)
  | _ => false

/-! ## The machine numbers: float64 bit for bit

The second number model follows IEEE-754 binary64 as Go evaluates it on `float64`: every
operation is computed exactly and then rounded to the nearest representable number, a tie going
to the even mantissa; a result of magnitude `2^1024` or more is an infinity, a result below
the smallest subnormal is a zero, and zeros carry a sign.  Operations are not fused. -/

/-- Values of Go's `float64`, bit for bit: a finite value given by its sign bit and its
magnitude (a zero has a sign), an infinity with its sign, or `NaN`. -/
inductive B64 where
  | fin (neg : Bool) (mag : ℚ)
  | inf (neg : Bool)
  | nan
  deriving DecidableEq

namespace B64

/-- The power `2^k` of an integer exponent, as a rational. -/
def pow2 (k : Int) : ℚ :=
  if 0 ≤ k then ((2 ^ k.toNat : Nat) : ℚ) else 1 / ((2 ^ (-k).toNat : Nat) : ℚ)

/-- The number of binary digits of `n`, counted by halving at most `fuel` times. -/
def bitLength : Nat → Nat → Nat
  | 0, _ => 0
  | fuel + 1, n => if n = 0 then 0 else bitLength fuel (n / 2) + 1

/-- The binary exponent of a positive rational `q`: the integer `e` with
`2^e ≤ q < 2^(e+1)`. -/
def expOf (q : ℚ) : Int :=
  let k : Int := (bitLength q.num.natAbs q.num.natAbs : Int) - (bitLength q.den q.den : Int)
  if pow2 k ≤ q then k else k - 1

/-- The spacing of the `float64` numbers around a positive rational `q`: 52 bits below its
leading bit, and `2^-1074` in the subnormal range. -/
def ulp (q : ℚ) : ℚ := pow2 (max (expOf q) (-1022) - 52)

/-- The multiple of the spacing nearest to a positive rational `q`, a tie going to the even
multiple. -/
def nearest (q : ℚ) : ℚ := (roundHalfEven (q / ulp q) : ℚ) * ulp q

/-- Rounding of the exact magnitude `q` of a result with sign bit `neg` to `float64`:
to the nearest multiple of the spacing, a tie going to the even one; `2^1024` or more
becomes an infinity, and what rounds to nothing a zero of the same sign. -/
def round (neg : Bool) (q : ℚ) : B64 :=
  if q ≤ 0 then fin neg 0
  else if pow2 1024 ≤ nearest q then inf neg
  else fin neg (nearest q)

/-- The `float64` nearest to a rational: the conversion of a constant. -/
def ofRat (q : ℚ) : B64 := round (decide (q < 0)) |q|

/-- Go's conversion `float64(n)` of an `int`. -/
def ofInt (n : Int) : B64 := ofRat (n : ℚ)

/-- The rational value of a sign bit and a magnitude. -/
def signed (neg : Bool) (mag : ℚ) : ℚ := if neg then -mag else mag

/-- Go's `x + y` on `float64`.  An exact sum of zero is `+0`, unless both terms are
negative zeros. -/
def add : B64 → B64 → B64
  | nan, _ => nan
  | _, nan => nan
  | inf s, inf t => if s = t then inf s else nan
  | inf s, fin _ _ => inf s
  | fin _ _, inf t => inf t
  | fin s a, fin t b =>
    if signed s a + signed t b = 0 then fin (s && t) 0
    else ofRat (signed s a + signed t b)

/-- Go's `x * y` on `float64`: the sign is the exclusive or of the signs, zero times an
infinity is `NaN`. -/
def mul : B64 → B64 → B64
  | nan, _ => nan
  | _, nan => nan
  | inf s, inf t => inf (xor s t)
  | inf s, fin t b => if b = 0 then nan else inf (xor s t)
  | fin s a, inf t => if a = 0 then nan else inf (xor s t)
  | fin s a, fin t b => round (xor s t) (a * b)

/-- Go's `x / y` on `float64`: a non-zero value over a zero is an infinity, zero over zero
and infinity over infinity are `NaN`, a finite value over an infinity is a zero. -/
def div : B64 → B64 → B64
  | nan, _ => nan
  | _, nan => nan
  | inf _, inf _ => nan
  | inf s, fin t _ => inf (xor s t)
  | fin s _, inf t => fin (xor s t) 0
  | fin s a, fin t b =>
    if b = 0 then (if a = 0 then nan else inf (xor s t))
    else round (xor s t) (a / b)

/-- Go's `x == y` on `float64`: by value, so the two zeros are equal, and `NaN` equals
nothing. -/
def beq : B64 → B64 → Bool
  | fin s a, fin t b => decide (signed s a = signed t b)
  | inf s, inf t => s == t
  | _, _ => false

/-- Go's `x < y` on `float64`: false as soon as one side is `NaN`. -/
def lt : B64 → B64 → Bool
  | nan, _ => false
  | _, nan => false
  | fin s a, fin t b => decide (signed s a < signed t b)
  | fin _ _, inf t => !t
  | inf s, fin _ _ => s
  | inf s, inf t => s && !t

/-- Go's `x <= y` on `float64`: false as soon as one side is `NaN`. -/
def le : B64 → B64 → Bool
  | nan, _ => false
  | _, nan => false
  | fin s a, fin t b => decide (signed s a ≤ signed t b)
  | fin _ _, inf t => !t
  | inf s, fin _ _ => s
  | inf s, inf t => s || !t

/-- Rounding of a positive rational to 53 significant bits, whatever its exponent. -/
def round53 (q : ℚ) : ℚ :=
  (roundHalfEven (q / pow2 (expOf q - 52)) : ℚ) * pow2 (expOf q - 52)

/-- Go's `math.Pow(x, 2)`: `NaN` for `NaN`, `+Inf` for an infinity, `+0` for a zero;
otherwise the square of the mantissa is rounded to 53 bits and `math.Ldexp` scales it,
rounding once more where the result is subnormal. -/
def mathPow2 : B64 → B64
  | nan => nan
  | inf _ => inf false
  | fin _ a => if a = 0 then fin false 0 else round false (round53 (a * a))

/-- The value is finite (neither an infinity nor `NaN`). -/
def isFinite : B64 → Bool
  | fin _ _ => true
  | _ => false

/-- The value is a `float64`: an infinity, `NaN`, or a finite value whose magnitude is not
negative and is left unchanged by rounding. -/
def isFloat64 : B64 → Bool
  | fin s a => decide (0 ≤ a) && decide (round s a = fin s a)
  | _ => true

/-- The sign bit is clear, or the value is `NaN`. -/
def signClear : B64 → Bool
  | fin s a => !s && decide (0 ≤ a)
  | inf s => !s
  | nan => true

/-- The value is a zero, positive or `NaN`: Go's `x < 0` is false. -/
def notNegative : B64 → Bool
  | fin s a => decide (0 ≤ a) && (!s || decide (a = 0))
  | inf s => !s
  | nan => true

instance : Add B64 := ⟨add⟩
instance : Mul B64 := ⟨mul⟩
instance : Div B64 := ⟨div⟩

end B64

/-! ## The program on machine numbers

The same constants and functions as above, evaluated on `B64`.  A constant takes the type
`float64` where it is used, that is, it is rounded to the nearest `float64`. -/

namespace Ieee

open B64

/-- Mean length of a step, in metres. -/
def lenStep : B64 := B64.ofRat 0.65
/-- Metres in a kilometre. -/
def mInKm : B64 := B64.ofRat 1000
/-- Minutes in an hour. -/
def minInH : B64 := B64.ofRat 60
/-- Factor converting km/h to m/s. -/
def kmhInMSec : B64 := B64.ofRat 0.278
/-- Centimetres in a metre. -/
def cmInM : B64 := B64.ofRat 100
/-- Multiplier of the mean speed (running). -/
def runningCaloriesMeanSpeedMultiplier : B64 := B64.ofRat 18
/-- The constant named "shift" of the running formula. -/
def runningCaloriesMeanSpeedShift : B64 := B64.ofRat 1.79
/-- Multiplier of the body weight (walking). -/
def walkingCaloriesWeightMultiplier : B64 := B64.ofRat 0.035
/-- Multiplier of the speed-over-height term (walking). -/
def walkingSpeedHeightMultiplier : B64 := B64.ofRat 0.029
/-- Shift of the mean speed (swimming). -/
def swimmingCaloriesMeanSpeedShift : B64 := B64.ofRat 1.1
/-- Multiplier of the weight (swimming). -/
def swimmingCaloriesWeightMultiplier : B64 := B64.ofRat 2

/-- `distance` (lines 41-43): `float64(action) * lenStep / mInKm`. -/
def distance (action : Int) : B64 :=
  B64.ofInt action * lenStep / mInKm

/-- `meanSpeed` (lines 51-56). -/
def meanSpeed (distance duration : B64) : B64 :=
  if B64.beq duration (B64.ofRat 0) then B64.ofRat 0
  else distance / duration

/-- `swimmingMeanSpeed` (lines 65-70). -/
def swimmingMeanSpeed (lengthPool countPool : Int) (duration : B64) : B64 :=
  if B64.beq duration (B64.ofRat 0) then B64.ofRat 0
  else B64.ofInt lengthPool * B64.ofInt countPool / mInKm / duration

/-- `runningSpentCalories` (lines 79-81). -/
def runningSpentCalories (weight duration speed : B64) : B64 :=
  (runningCaloriesMeanSpeedMultiplier * speed * runningCaloriesMeanSpeedShift)
    * weight / mInKm * duration * minInH

/-- `walkingSpentCalories` (lines 91-95). -/
def walkingSpentCalories (duration weight height speed : B64) : B64 :=
  let speedInMSec := speed * kmhInMSec
  let heightInM := height / B64.ofRat 100
  ((walkingCaloriesWeightMultiplier * weight)
    + ((B64.mathPow2 speedInMSec / heightInM) * walkingSpeedHeightMultiplier * weight))
    * duration * minInH

/-- `swimmingSpentCalories` (lines 104-106). -/
def swimmingSpentCalories (duration weight speed : B64) : B64 :=
  (speed + swimmingCaloriesMeanSpeedShift) * swimmingCaloriesWeightMultiplier * weight * duration

/-- Go's verb `%.2f` of package `fmt` applied to a `float64`: `NaN`, `+Inf`, `-Inf` for the
non-finite values; otherwise a minus sign when the sign bit is set, then the exact value
rounded to two decimals (a tie going to the even digit): the integer part, a point and two
digits. -/
def formatFixed2 : B64 → String
  | B64.nan => "NaN"
  | B64.inf false => "+Inf"
  | B64.inf true => "-Inf"
  | B64.fin s a =>
    let n := (roundHalfEven (a * 100)).toNat
    (if s then "-" else "") ++ toString (n / 100) ++ "."
      ++ String.mk [Nat.digitChar (n / 10 % 10), Nat.digitChar (n % 10)]

/-- The call `fmt.Sprintf(format, trainingType, duration, distance, speed, calories)` with
the format string of lines 122, 127 and 132. -/
def sprintfReport (trainingType : String) (duration distance speed calories : B64) : String :=
  "Тип тренировки: " ++ trainingType
    ++ "\nДлительность: " ++ formatFixed2 duration
    ++ " ч.\nДистанция: " ++ formatFixed2 distance
    ++ " км.\nСкорость: " ++ formatFixed2 speed
    ++ " км/ч\nСожгли калорий: " ++ formatFixed2 calories ++ "\n"

/-- `showTrainingInfo` (lines 115-136): a `switch` on the training type. -/
def showTrainingInfo (action : Int) (trainingType : String) (duration weight height : B64)
    (lengthPool countPool : Int) : String :=
  if trainingType = "Бег" then
    let dist := distance action
    let speed := meanSpeed dist duration
    let calories := runningSpentCalories weight duration speed
    sprintfReport trainingType duration dist speed calories
  else if trainingType = "Ходьба" then
    let dist := distance action
    let speed := meanSpeed dist duration
    let calories := walkingSpentCalories duration weight height speed
    sprintfReport trainingType duration dist speed calories
  else if trainingType = "Плавание" then
    let dist := distance action
    let speed := swimmingMeanSpeed lengthPool countPool duration
    let calories := swimmingSpentCalories duration weight speed
    sprintfReport trainingType duration dist speed calories
  else
    "неизвестный тип тренировки"

end Ieee

/-! ## Arithmetic on finite values -/

@[simp]
theorem F64.fin_add_fin (a b : ℚ) : fin a + fin b = fin (a + b) := rfl

@[simp]
theorem F64.fin_mul_fin (a b : ℚ) : fin a * fin b = fin (a * b) := rfl

theorem F64.fin_div_fin (a b : ℚ) :
    fin a / fin b = if b = 0 then F64.scaleInf a else fin (a / b) := rfl

@[simp]
theorem F64.fin_div_fin_of_ne (a : ℚ) {b : ℚ} (hb : b ≠ 0) :
    fin a / fin b = fin (a / b) := by
  rw [F64.fin_div_fin, if_neg hb]

@[simp]
theorem F64.mathPow_fin_two (a : ℚ) : F64.mathPow (fin a) 2 = fin (a ^ 2) := rfl

@[simp]
theorem F64.beq_fin_zero (a : ℚ) : F64.beq (fin a) (fin 0) = decide (a = 0) := rfl

/-- A division by zero never yields a finite value. -/
theorem F64.div_zero_not_finite (d : F64) : (d / fin 0).isFinite = false := by
  cases d with
  | fin a =>
    rw [F64.fin_div_fin, if_pos rfl]
    unfold F64.scaleInf
    split_ifs <;> rfl
  | pinf => rfl
  | ninf => rfl
  | nan => rfl

/-- The value of the source's `runningSpentCalories` on finite arguments: the three factors
`18`, `speed` and `1.79` are multiplied. -/
theorem runningSpentCalories_fin (w d s : ℚ) :
    runningSpentCalories (fin w) (fin d) (fin s) = fin (18 * s * 1.79 * w / 1000 * d * 60) := by
  simp [runningSpentCalories, runningCaloriesMeanSpeedMultiplier, runningCaloriesMeanSpeedShift,
    mInKm, minInH]

/-- A formatted report is never the message for an unknown training type: it starts with
another letter. -/
theorem sprintfReport_ne_unknown (t : String) (a b c d : F64) :
    sprintfReport t a b c d ≠ "неизвестный тип тренировки" := by
  intro h
  have h2 := congrArg String.data h
  simp [sprintfReport, String.data_append] at h2

/-! ## Calories -/

/-- Claim C1 (fails on the code): `runningSpentCalories(weight, duration, speed)` should be
`(18 × speed + 1.79) × weight / 1000 × duration × 60`.  The source multiplies by `1.79`
where the formula adds it: on finite arguments it returns
`18 × speed × 1.79 × weight / 1000 × duration × 60`.  At weight 70, duration 1, speed 10 it
returns 1353.24, while the formula of the specification gives
`(18×10+1.79)×70/1000×1×60`. -/
theorem runningSpentCalories_multiplies_shift :
    (∀ w d s : ℚ, runningSpentCalories (fin w) (fin d) (fin s)
        = fin (18 * s * 1.79 * w / 1000 * d * 60))
    ∧ runningSpentCalories (fin 70) (fin 1) (fin 10) = fin 1353.24
    ∧ runningSpentCaloriesSpec (fin 70) (fin 1) (fin 10)
        = fin ((18 * 10 + 1.79) * 70 / 1000 * 1 * 60)
    ∧ runningSpentCalories (fin 70) (fin 1) (fin 10)
        ≠ fin ((18 * 10 + 1.79) * 70 / 1000 * 1 * 60) := by
  refine ⟨runningSpentCalories_fin, ?_, ?_, ?_⟩
  · rw [runningSpentCalories_fin]; norm_num
  · simp [runningSpentCaloriesSpec, runningCaloriesMeanSpeedMultiplier,
      runningCaloriesMeanSpeedShift, mInKm, minInH]
  · rw [runningSpentCalories_fin]; norm_num

/-- Claim C2 (fails on the code, by the slip of C1): at weight 70, duration 1, speed 10
`runningSpentCalories` returns 1353.24, also bit for bit as `%.2f` prints it, and not the
value `(18×10+1.79)×70/1000×1×60` of the specification's formula; that value is 763.518,
which is 763.52 when rounded to two decimals. -/
theorem runningSpentCalories_70_1_10_value :
    runningSpentCalories (fin 70) (fin 1) (fin 10) = fin 1353.24
    ∧ runningSpentCalories (fin 70) (fin 1) (fin 10)
        ≠ fin ((18 * 10 + 1.79) * 70 / 1000 * 1 * 60)
    ∧ Ieee.formatFixed2
        (Ieee.runningSpentCalories (B64.ofRat 70) (B64.ofRat 1) (B64.ofRat 10)) = "1353.24"
    ∧ runningSpentCaloriesSpec (fin 70) (fin 1) (fin 10)
        = fin ((18 * 10 + 1.79) * 70 / 1000 * 1 * 60)
    ∧ (18 * 10 + 1.79) * 70 / 1000 * 1 * 60 = (763.518 : ℚ)
    ∧ roundTo2 763.518 = 763.52 := by
  decide!

/-- Claim C5: whatever the other arguments are, `showTrainingInfo` returns the string
"неизвестный тип тренировки" exactly when the training type is none of "Бег", "Ходьба",
"Плавание": an unknown type gives that string as an ordinary result, and a recognised
type never gives it. -/
theorem showTrainingInfo_unknown_iff (action : Int) (trainingType : String)
    (duration weight height : F64) (lengthPool countPool : Int) :
    showTrainingInfo action trainingType duration weight height lengthPool countPool
        = "неизвестный тип тренировки"
      ↔ (trainingType ≠ "Бег" ∧ trainingType ≠ "Ходьба" ∧ trainingType ≠ "Плавание") := by
  unfold showTrainingInfo
  split_ifs with h1 h2 h3
  · simp [h1, sprintfReport_ne_unknown]
  · simp [h2, sprintfReport_ne_unknown]
  · simp [h3, sprintfReport_ne_unknown]
  · simp [h1, h2, h3]

/-- Witness of C5: the type "Unknown" is none of the three tags, and the result is the
message for an unknown type. -/
theorem showTrainingInfo_unknown_iff_witness :
    showTrainingInfo 1000 "Unknown" (fin 1) (fin 70) (fin 175) 25 40
      = "неизвестный тип тренировки" :=
  (showTrainingInfo_unknown_iff 1000 "Unknown" (fin 1) (fin 70) (fin 175) 25 40).mpr
    ⟨by decide, by decide, by decide⟩

/-- Claim C6: for each recognised training type the report is formatted from the values of
that type's pipeline.  Running: `distance(action)`, `meanSpeed(distance, duration)`,
`runningSpentCalories(weight, duration, speed)`.  Walking: `distance(action)`,
`meanSpeed(distance, duration)`, `walkingSpentCalories(duration, weight, height, speed)`.
Swimming: `distance(action)`, `swimmingMeanSpeed(lengthPool, countPool, duration)`,
`swimmingSpentCalories(duration, weight, speed)`. -/
theorem showTrainingInfo_pipelines (action : Int) (duration weight height : F64)
    (lengthPool countPool : Int) :
    showTrainingInfo action "Бег" duration weight height lengthPool countPool
        = sprintfReport "Бег" duration (distance action) (meanSpeed (distance action) duration)
            (runningSpentCalories weight duration (meanSpeed (distance action) duration))
    ∧ showTrainingInfo action "Ходьба" duration weight height lengthPool countPool
        = sprintfReport "Ходьба" duration (distance action)
            (meanSpeed (distance action) duration)
            (walkingSpentCalories duration weight height (meanSpeed (distance action) duration))
    ∧ showTrainingInfo action "Плавание" duration weight height lengthPool countPool
        = sprintfReport "Плавание" duration (distance action)
            (swimmingMeanSpeed lengthPool countPool duration)
            (swimmingSpentCalories duration weight
              (swimmingMeanSpeed lengthPool countPool duration)) := by
  refine ⟨?_, ?_, ?_⟩
  · simp [showTrainingInfo]
  · have h : ("Ходьба" : String) ≠ "Бег" := by decide
    simp [showTrainingInfo, h]
  · have h1 : ("Плавание" : String) ≠ "Бег" := by decide
    have h2 : ("Плавание" : String) ≠ "Ходьба" := by decide
    simp [showTrainingInfo, h1, h2]

/-! ## Speed and distance -/

/-- Claim C7: for every distance `d`, finite or not, `meanSpeed(d, 0) = 0`: a zero duration
yields the finite value 0, whereas the division `d / 0` itself is never finite. -/
theorem meanSpeed_zero_duration :
    (∀ d : F64, meanSpeed d (fin 0) = fin 0) ∧ (∀ d : F64, (d / fin 0).isFinite = false) :=
  ⟨fun d => by simp [meanSpeed], F64.div_zero_not_finite⟩

/-- Claim C8: for every pool length `L` and lap count `C`,
`swimmingMeanSpeed(L, C, 0) = 0`. -/
theorem swimmingMeanSpeed_zero_duration (L C : Int) :
    swimmingMeanSpeed L C (fin 0) = fin 0 := by
  simp [swimmingMeanSpeed]

/-- Claim C11: for every distance `d` and every duration `t` other than 0, `meanSpeed(d, t)`
is `d / t`: as the `float64` quotient for all values, and as the exact quotient for
finite ones. -/
theorem meanSpeed_formula :
    (∀ d t : F64, F64.beq t (fin 0) = false → meanSpeed d t = d / t)
    ∧ (∀ d t : ℚ, t ≠ 0 → meanSpeed (fin d) (fin t) = fin (d / t)) := by
  constructor
  · intro d t ht
    simp [meanSpeed, ht]
  · intro d t ht
    simp [meanSpeed, ht]

/-- Witness of C11: the duration 2 is not 0, and `meanSpeed(2.6, 2) = 2.6 / 2`. -/
theorem meanSpeed_formula_witness :
    (2 : ℚ) ≠ 0 ∧ meanSpeed (fin 2.6) (fin 2) = fin (2.6 / 2) :=
  ⟨by norm_num, meanSpeed_formula.2 2.6 2 (by norm_num)⟩

/-! ## Digits -/

/-- A decimal digit character is a digit. -/
theorem digitChar_mod_ten_isDigit (n : Nat) : (Nat.digitChar (n % 10)).isDigit = true := by
  have h : n % 10 < 10 := Nat.mod_lt n (by decide)
  interval_cases n % 10 <;> decide

/-- The digit loop of `Nat.repr` only produces digits. -/
theorem toDigitsCore_all_isDigit (fuel : Nat) :
    ∀ (n : Nat) (ds : List Char), (∀ c ∈ ds, c.isDigit = true) →
      ∀ c ∈ Nat.toDigitsCore 10 fuel n ds, c.isDigit = true := by
  induction fuel with
  | zero =>
    intro n ds hds c hc
    simpa [Nat.toDigitsCore] using hds c hc
  | succ fuel ih =>
    intro n ds hds c hc
    have hcons : ∀ c ∈ Nat.digitChar (n % 10) :: ds, c.isDigit = true := by
      intro c hc
      rcases List.mem_cons.mp hc with h | h
      · rw [h]; exact digitChar_mod_ten_isDigit n
      · exact hds c h
    unfold Nat.toDigitsCore at hc
    by_cases h0 : n / 10 = 0
    · simp only [h0, if_true] at hc
      exact hcons c hc
    · simp only [h0, if_false] at hc
      exact ih (n / 10) _ hcons c hc

/-- The digit loop of `Nat.repr` never returns an empty list once it has fuel. -/
theorem toDigitsCore_ne_nil (fuel : Nat) :
    ∀ (n : Nat) (ds : List Char), (fuel ≠ 0 ∨ ds ≠ []) → Nat.toDigitsCore 10 fuel n ds ≠ [] := by
  induction fuel with
  | zero =>
    intro n ds h
    rcases h with h | h
    · exact absurd rfl h
    · simpa [Nat.toDigitsCore] using h
  | succ fuel ih =>
    intro n ds _
    unfold Nat.toDigitsCore
    by_cases h0 : n / 10 = 0
    · simp [h0]
    · simp only [h0, if_false]
      exact ih (n / 10) _ (Or.inr (List.cons_ne_nil _ _))

/-- The decimal rendering of a natural number is one or more digits. -/
theorem isDigits_repr (n : Nat) : isDigits (toString n).data = true := by
  have hall := toDigitsCore_all_isDigit (n + 1) n [] (by simp)
  have hne := toDigitsCore_ne_nil (n + 1) n [] (Or.inl (Nat.succ_ne_zero n))
  have hdata : (toString n).data = Nat.toDigitsCore 10 (n + 1) n [] := rfl
  rw [hdata]
  unfold isDigits
  simp only [Bool.and_eq_true, Bool.not_eq_true', List.isEmpty_eq_false, List.all_eq_true]
  exact ⟨hne, hall⟩

/-- A minus sign or nothing, then digits, a point and two digits read as a numeral with two
decimals. -/
theorem isFixed2_of_parts (neg : Bool) (ds : List Char) (c1 c2 : Char)
    (hds : isDigits ds = true) (h1 : c1.isDigit = true) (h2 : c2.isDigit = true) :
    isFixed2 (String.mk ((if neg then ['-'] else []) ++ ds ++ ['.', c1, c2])) = true := by
  have hrev : ((if neg then ['-'] else []) ++ ds ++ ['.', c1, c2]).reverse
      = c2 :: c1 :: '.' :: ((if neg then ['-'] else []) ++ ds).reverse := by
    simp
  unfold isFixed2
  simp only [hrev, List.reverse_reverse, h1, h2, Bool.and_self, Bool.true_and]
  cases neg with
  | true => simpa using hds
  | false =>
    cases ds with
    | nil => simp [isDigits] at hds
    | cons c cs =>
      have hc : c.isDigit = true := by
        simp only [isDigits, Bool.and_eq_true, List.all_eq_true] at hds
        exact hds.2 c (List.mem_cons_self c cs)
      have hne : c ≠ '-' := by
        intro h
        rw [h] at hc
        exact absurd hc (by decide)
      simp only [if_false, Bool.false_eq_true, List.nil_append]
      split
      · rename_i heq
        injection heq with h _
        exact absurd h hne
      · exact hds

/-- The text that `formatFixed2` gives for a finite value. -/
theorem formatFixed2_fin_data (q : ℚ) :
    formatFixed2 (fin q)
      = String.mk ((if decide (q < 0) then ['-'] else [])
          ++ (toString ((roundHalfEven (|q| * 100)).toNat / 100)).data
          ++ ['.', Nat.digitChar ((roundHalfEven (|q| * 100)).toNat / 10 % 10),
              Nat.digitChar ((roundHalfEven (|q| * 100)).toNat % 10)]) := by
  apply String.ext
  by_cases h : q < 0 <;> simp [formatFixed2, h, String.data_append]

/-- No rendered number contains a line break. -/
theorem formatFixed2_no_newline (x : F64) : '\n' ∉ (formatFixed2 x).data := by
  cases x with
  | fin q =>
    rw [formatFixed2_fin_data]
    have hd := isDigits_repr ((roundHalfEven (|q| * 100)).toNat / 100)
    simp only [isDigits, Bool.and_eq_true, List.all_eq_true] at hd
    intro hmem
    simp only [List.mem_append, List.mem_cons, List.mem_singleton] at hmem
    rcases hmem with (h | h) | h
    · by_cases hq : q < 0 <;> simp [hq] at h
    · exact absurd (hd.2 _ h) (by decide)
    · rcases h with h | h | h | h
      · exact absurd h (by decide)
      · have := digitChar_mod_ten_isDigit ((roundHalfEven (|q| * 100)).toNat / 10)
        rw [← h] at this
        exact absurd this (by decide)
      · have := digitChar_mod_ten_isDigit ((roundHalfEven (|q| * 100)).toNat)
        rw [← h] at this
        exact absurd this (by decide)
      · simp at h
  | pinf => decide
  | ninf => decide
  | nan => decide

/-! ## The report, case by case -/

/-- The running case of `showTrainingInfo`. -/
theorem showTrainingInfo_running (action : Int) (duration weight height : F64)
    (lengthPool countPool : Int) :
    showTrainingInfo action "Бег" duration weight height lengthPool countPool
      = sprintfReport "Бег" duration (distance action) (meanSpeed (distance action) duration)
          (runningSpentCalories weight duration (meanSpeed (distance action) duration)) := by
  simp [showTrainingInfo]

/-- The walking case of `showTrainingInfo`. -/
theorem showTrainingInfo_walking (action : Int) (duration weight height : F64)
    (lengthPool countPool : Int) :
    showTrainingInfo action "Ходьба" duration weight height lengthPool countPool
      = sprintfReport "Ходьба" duration (distance action) (meanSpeed (distance action) duration)
          (walkingSpentCalories duration weight height
            (meanSpeed (distance action) duration)) := by
  have h : ("Ходьба" : String) ≠ "Бег" := by decide
  simp [showTrainingInfo, h]

/-- The swimming case of `showTrainingInfo`. -/
theorem showTrainingInfo_swimming (action : Int) (duration weight height : F64)
    (lengthPool countPool : Int) :
    showTrainingInfo action "Плавание" duration weight height lengthPool countPool
      = sprintfReport "Плавание" duration (distance action)
          (swimmingMeanSpeed lengthPool countPool duration)
          (swimmingSpentCalories duration weight
            (swimmingMeanSpeed lengthPool countPool duration)) := by
  have h1 : ("Плавание" : String) ≠ "Бег" := by decide
  have h2 : ("Плавание" : String) ≠ "Ходьба" := by decide
  simp [showTrainingInfo, h1, h2]

/-- For a recognised training type the result is a formatted report of that type and of the
given duration. -/
theorem showTrainingInfo_recognised (action : Int) (t : String) (duration weight height : F64)
    (lengthPool countPool : Int) (ht : t = "Бег" ∨ t = "Ходьба" ∨ t = "Плавание") :
    ∃ dist speed cal : F64,
      showTrainingInfo action t duration weight height lengthPool countPool
        = sprintfReport t duration dist speed cal := by
  rcases ht with h | h | h <;> subst h
  · exact ⟨_, _, _, showTrainingInfo_running action duration weight height lengthPool countPool⟩
  · exact ⟨_, _, _, showTrainingInfo_walking action duration weight height lengthPool countPool⟩
  · exact ⟨_, _, _, showTrainingInfo_swimming action duration weight height lengthPool countPool⟩

/-- The report of `sprintfReport` is five lines, each ended by a line break. -/
theorem sprintfReport_lines (t : String) (duration dist speed cal : F64) :
    sprintfReport t duration dist speed cal
      = String.join (List.map (fun line => line ++ "\n")
          ["Тип тренировки: " ++ t,
           "Длительность: " ++ formatFixed2 duration ++ " ч.",
           "Дистанция: " ++ formatFixed2 dist ++ " км.",
           "Скорость: " ++ formatFixed2 speed ++ " км/ч",
           "Сожгли калорий: " ++ formatFixed2 cal]) := by
  apply String.ext
  simp [sprintfReport, String.join, String.data_append]

/-- None of the five lines of a report contains a line break, when the type contains none. -/
theorem reportLines_no_newline (t : String) (duration dist speed cal : F64)
    (ht : '\n' ∉ t.data) :
    ∀ line ∈ ["Тип тренировки: " ++ t,
           "Длительность: " ++ formatFixed2 duration ++ " ч.",
           "Дистанция: " ++ formatFixed2 dist ++ " км.",
           "Скорость: " ++ formatFixed2 speed ++ " км/ч",
           "Сожгли калорий: " ++ formatFixed2 cal], '\n' ∉ line.data := by
  have hd := formatFixed2_no_newline duration
  have hx := formatFixed2_no_newline dist
  have hs := formatFixed2_no_newline speed
  have hc := formatFixed2_no_newline cal
  intro line hline
  simp only [List.mem_cons, List.mem_singleton, List.not_mem_nil, or_false] at hline
  rcases hline with h | h | h | h | h <;> subst h <;>
    simp [String.data_append, ht, hd, hx, hs, hc]

/-! ## Shape of the report -/

/-- Claim C13: for each recognised training type the string returned by `showTrainingInfo`
is the same five-line template, each line ended by a line break and containing no other
line break: "Тип тренировки: <type>", "Длительность: <duration> ч.",
"Дистанция: <distance> км.", "Скорость: <speed> км/ч", "Сожгли калорий: <calories>", in that
order, with the input tag unchanged and the input duration. -/
theorem showTrainingInfo_template (action : Int) (t : String) (duration weight height : F64)
    (lengthPool countPool : Int) (ht : t = "Бег" ∨ t = "Ходьба" ∨ t = "Плавание") :
    ∃ dist speed cal : F64, ∃ lines : List String,
      lines = ["Тип тренировки: " ++ t,
               "Длительность: " ++ formatFixed2 duration ++ " ч.",
               "Дистанция: " ++ formatFixed2 dist ++ " км.",
               "Скорость: " ++ formatFixed2 speed ++ " км/ч",
               "Сожгли калорий: " ++ formatFixed2 cal]
      ∧ showTrainingInfo action t duration weight height lengthPool countPool
          = String.join (List.map (fun line => line ++ "\n") lines)
      ∧ ∀ line ∈ lines, '\n' ∉ line.data := by
  obtain ⟨dist, speed, cal, hrep⟩ :=
    showTrainingInfo_recognised action t duration weight height lengthPool countPool ht
  have hnl : '\n' ∉ t.data := by
    rcases ht with h | h | h <;> subst h <;> decide
  refine ⟨dist, speed, cal, _, rfl, ?_, ?_⟩
  · rw [hrep, sprintfReport_lines]
  · exact reportLines_no_newline t duration dist speed cal hnl

/-- Witness of C13: the running report for 4000 steps in one hour at 85 kg. -/
theorem showTrainingInfo_template_witness :
    ∃ dist speed cal : F64, ∃ lines : List String,
      lines = ["Тип тренировки: " ++ "Бег",
               "Длительность: " ++ formatFixed2 (fin 1) ++ " ч.",
               "Дистанция: " ++ formatFixed2 dist ++ " км.",
               "Скорость: " ++ formatFixed2 speed ++ " км/ч",
               "Сожгли калорий: " ++ formatFixed2 cal]
      ∧ showTrainingInfo 4000 "Бег" (fin 1) (fin 85) (fin 185) 50 10
          = String.join (List.map (fun line => line ++ "\n") lines)
      ∧ ∀ line ∈ lines, '\n' ∉ line.data :=
  showTrainingInfo_template 4000 "Бег" (fin 1) (fin 85) (fin 185) 50 10 (Or.inl rfl)

/-! ## Speed against distance -/

/-- Claim C18: in the swimming pipeline the distance put in the report is `distance(action)`,
whatever the pool length and lap count are, and the speed is
`swimmingMeanSpeed(lengthPool, countPool, duration)`, whatever the action count is; so speed
times duration need not be the distance: for 4000 strokes and 10 lengths of a 50 m pool in one
hour the speed is 0.5 km/h and the distance 2.6 km. -/
theorem swimming_speed_independent_of_distance :
    (∀ (action action2 : Int) (duration weight height : F64)
        (lengthPool countPool lengthPool2 countPool2 : Int),
      ∃ cal cal2 : F64,
        showTrainingInfo action "Плавание" duration weight height lengthPool countPool
          = sprintfReport "Плавание" duration (distance action)
              (swimmingMeanSpeed lengthPool countPool duration) cal
        ∧ showTrainingInfo action "Плавание" duration weight height lengthPool2 countPool2
          = sprintfReport "Плавание" duration (distance action)
              (swimmingMeanSpeed lengthPool2 countPool2 duration) cal2
        ∧ showTrainingInfo action2 "Плавание" duration weight height lengthPool countPool
          = sprintfReport "Плавание" duration (distance action2)
              (swimmingMeanSpeed lengthPool countPool duration) cal)
    ∧ F64.beq (fin 1) (fin 0) = false
    ∧ swimmingMeanSpeed 50 10 (fin 1) * fin 1 = fin 0.5
    ∧ distance 4000 = fin 2.6
    ∧ swimmingMeanSpeed 50 10 (fin 1) * fin 1 ≠ distance 4000
    ∧ showTrainingInfo 4000 "Плавание" (fin 1) (fin 85) (fin 185) 50 10
        = "Тип тренировки: Плавание\nДлительность: 1.00 ч.\nДистанция: 2.60 км.\nСкорость: 0.50 км/ч\nСожгли калорий: 272.00\n" := by
  refine ⟨?_, by decide!, by decide!, by decide!, by decide!, by decide!⟩
  intro action action2 duration weight height lengthPool countPool lengthPool2 countPool2
  exact ⟨_, _, showTrainingInfo_swimming action duration weight height lengthPool countPool,
    showTrainingInfo_swimming action duration weight height lengthPool2 countPool2,
    showTrainingInfo_swimming action2 duration weight height lengthPool countPool⟩

/-! ## Rounding to the nearest integer -/

/-- The nearest integer is at most one half away. -/
theorem abs_roundHalfEven_sub_le (q : ℚ) : |(roundHalfEven q : ℚ) - q| ≤ 1 / 2 := by
  have h1 : (⌊q⌋ : ℚ) ≤ q := Int.floor_le q
  have h2 : q < ⌊q⌋ + 1 := Int.lt_floor_add_one q
  unfold roundHalfEven
  simp only
  split_ifs with ha hb hc
  · rw [abs_le]; constructor <;> linarith
  · push_cast; rw [abs_le]; constructor <;> linarith
  · have : q - ⌊q⌋ = 1 / 2 := le_antisymm (not_lt.mp hb) (not_lt.mp ha)
    rw [abs_le]; constructor <;> linarith
  · have : q - ⌊q⌋ = 1 / 2 := le_antisymm (not_lt.mp hb) (not_lt.mp ha)
    push_cast; rw [abs_le]; constructor <;> linarith

/-- An integer is its own nearest integer. -/
theorem roundHalfEven_intCast (n : Int) : roundHalfEven (n : ℚ) = n := by
  unfold roundHalfEven
  simp

/-- The nearest integer to a rational below an integer bound is below that bound. -/
theorem roundHalfEven_le_of_le (q : ℚ) (n : Int) (h : q ≤ n) : roundHalfEven q ≤ n := by
  have h1 := abs_roundHalfEven_sub_le q
  rw [abs_le] at h1
  have h2 : (roundHalfEven q : ℚ) < (n : ℚ) + 1 := by linarith [h1.2]
  have h3 : roundHalfEven q < n + 1 := by exact_mod_cast h2
  omega

/-- The nearest integer to a rational that is not negative is not negative. -/
theorem roundHalfEven_nonneg (q : ℚ) (h : 0 ≤ q) : 0 ≤ roundHalfEven q := by
  have h1 := abs_roundHalfEven_sub_le q
  rw [abs_le] at h1
  have h2 : ((-1 : Int) : ℚ) < (roundHalfEven q : ℚ) := by push_cast; linarith [h1.1]
  have h3 : (-1 : Int) < roundHalfEven q := by exact_mod_cast h2
  omega

/-! ## Powers of two -/

/-- The function `pow2` is the power of two of Mathlib. -/
theorem B64.pow2_eq_zpow (k : Int) : B64.pow2 k = (2 : ℚ) ^ k := by
  unfold B64.pow2
  split_ifs with h
  · obtain ⟨n, rfl⟩ := Int.eq_ofNat_of_zero_le h
    simp
  · have h' : 0 ≤ -k := by omega
    obtain ⟨n, hn⟩ := Int.eq_ofNat_of_zero_le h'
    have hk : k = -(n : Int) := by omega
    subst hk
    simp

theorem B64.pow2_pos (k : Int) : 0 < B64.pow2 k := by
  rw [B64.pow2_eq_zpow]; positivity

theorem B64.pow2_add (a b : Int) : B64.pow2 (a + b) = B64.pow2 a * B64.pow2 b := by
  simp only [B64.pow2_eq_zpow]
  exact zpow_add₀ (by norm_num) a b

theorem B64.pow2_le_pow2 {a b : Int} (h : a ≤ b) : B64.pow2 a ≤ B64.pow2 b := by
  simp only [B64.pow2_eq_zpow]
  exact zpow_le_zpow_right₀ (by norm_num) h

theorem B64.pow2_lt_pow2 {a b : Int} (h : a < b) : B64.pow2 a < B64.pow2 b := by
  simp only [B64.pow2_eq_zpow]
  exact zpow_lt_zpow_right₀ (by norm_num) h

/-- With enough fuel, `bitLength` is the number of binary digits. -/
theorem B64.bitLength_spec (fuel : Nat) :
    ∀ n : Nat, n ≤ fuel → n ≠ 0 →
      2 ^ B64.bitLength fuel n ≤ 2 * n ∧ n < 2 ^ B64.bitLength fuel n := by
  induction fuel with
  | zero =>
    intro n hn h0
    omega
  | succ fuel ih =>
    intro n hn h0
    unfold B64.bitLength
    rw [if_neg h0]
    by_cases h1 : n / 2 = 0
    · have hn1 : n = 1 := by omega
      subst hn1
      cases fuel <;> simp [B64.bitLength]
    · have hle : n / 2 ≤ fuel := by omega
      obtain ⟨ha, hb⟩ := ih (n / 2) hle h1
      rw [pow_succ]
      constructor
      · have : 2 * (n / 2) ≤ n := Nat.mul_div_le n 2
        omega
      · have : n < 2 * (n / 2) + 2 := by omega
        omega

/-- The binary exponent brackets a positive rational between two powers of two. -/
theorem B64.expOf_spec (q : ℚ) (hq : 0 < q) :
    B64.pow2 (B64.expOf q) ≤ q ∧ q < B64.pow2 (B64.expOf q + 1) := by
  have hnum : 0 < q.num := Rat.num_pos.mpr hq
  have hden : 0 < q.den := q.den_pos
  set a := q.num.natAbs with ha
  set b := q.den with hb
  have ha0 : a ≠ 0 := by
    rw [ha]; intro h; rw [Int.natAbs_eq_zero] at h; omega
  have hb0 : b ≠ 0 := by omega
  have hqab : q = (a : ℚ) / (b : ℚ) := by
    have hn : (q.num : ℚ) = (a : ℚ) := by
      have : q.num = (a : Int) := by rw [ha]; omega
      rw [this]; simp
    rw [← hn, hb]
    exact (Rat.num_div_den q).symm
  have hbq : (0 : ℚ) < (b : ℚ) := by exact_mod_cast hden
  obtain ⟨sa1, sa2⟩ := B64.bitLength_spec a a (le_refl a) ha0
  obtain ⟨sb1, sb2⟩ := B64.bitLength_spec b b (le_refl b) hb0
  set la : Int := (B64.bitLength a a : Int) with hla
  set lb : Int := (B64.bitLength b b : Int) with hlb
  have ha1 : (2 : ℚ) ^ la ≤ 2 * (a : ℚ) := by
    rw [hla, zpow_natCast]; exact_mod_cast sa1
  have ha2 : (a : ℚ) < (2 : ℚ) ^ la := by
    rw [hla, zpow_natCast]; exact_mod_cast sa2
  have hb1 : (2 : ℚ) ^ lb ≤ 2 * (b : ℚ) := by
    rw [hlb, zpow_natCast]; exact_mod_cast sb1
  have hb2 : (b : ℚ) < (2 : ℚ) ^ lb := by
    rw [hlb, zpow_natCast]; exact_mod_cast sb2
  have hpa : (0 : ℚ) < (2 : ℚ) ^ la := by positivity
  have hpb : (0 : ℚ) < (2 : ℚ) ^ lb := by positivity
  -- lower and upper bounds at `k - 1` and `k + 1`
  have hlow : (2 : ℚ) ^ (la - lb - 1) < q := by
    have : (2 : ℚ) ^ (la - lb - 1) = (2 : ℚ) ^ la / (2 * (2 : ℚ) ^ lb) := by
      rw [sub_sub, zpow_sub₀ (by norm_num), zpow_add₀ (by norm_num), zpow_one, mul_comm]
    rw [this, hqab, div_lt_div_iff₀ (by positivity) hbq]
    calc (2 : ℚ) ^ la * (b : ℚ) < (2 : ℚ) ^ la * (2 : ℚ) ^ lb :=
          mul_lt_mul_of_pos_left hb2 hpa
      _ ≤ 2 * (a : ℚ) * (2 : ℚ) ^ lb := mul_le_mul_of_nonneg_right ha1 hpb.le
      _ = (a : ℚ) * (2 * (2 : ℚ) ^ lb) := by ring
  have hup : q < (2 : ℚ) ^ (la - lb + 1) := by
    have : (2 : ℚ) ^ (la - lb + 1) = 2 * (2 : ℚ) ^ la / (2 : ℚ) ^ lb := by
      rw [zpow_add₀ (by norm_num), zpow_sub₀ (by norm_num), zpow_one]; ring
    rw [this, hqab, div_lt_div_iff₀ hbq hpb]
    calc (a : ℚ) * (2 : ℚ) ^ lb < (2 : ℚ) ^ la * (2 : ℚ) ^ lb :=
          mul_lt_mul_of_pos_right ha2 hpb
      _ ≤ (2 : ℚ) ^ la * (2 * (b : ℚ)) := mul_le_mul_of_nonneg_left hb1 hpa.le
      _ = 2 * (2 : ℚ) ^ la * (b : ℚ) := by ring
  have hexp : B64.expOf q = if B64.pow2 (la - lb) ≤ q then la - lb else la - lb - 1 := rfl
  rw [hexp]
  split_ifs with h
  · exact ⟨h, by rw [B64.pow2_eq_zpow]; exact hup⟩
  · constructor
    · rw [B64.pow2_eq_zpow]; exact hlow.le
    · have : la - lb - 1 + 1 = la - lb := by ring
      rw [this]; exact not_le.mp h

/-! ## Rounding to float64 -/

theorem B64.ulp_pos (q : ℚ) : 0 < B64.ulp q := B64.pow2_pos _

/-- The nearest multiple of the spacing is at most half a spacing away. -/
theorem B64.abs_nearest_sub_le (q : ℚ) : |B64.nearest q - q| ≤ B64.ulp q / 2 := by
  have hu := B64.ulp_pos q
  have h := abs_roundHalfEven_sub_le (q / B64.ulp q)
  have e : B64.nearest q - q
      = ((roundHalfEven (q / B64.ulp q) : ℚ) - q / B64.ulp q) * B64.ulp q := by
    unfold B64.nearest
    field_simp
  rw [e, abs_mul, abs_of_pos hu]
  calc |(roundHalfEven (q / B64.ulp q) : ℚ) - q / B64.ulp q| * B64.ulp q
      ≤ 1 / 2 * B64.ulp q := mul_le_mul_of_nonneg_right h hu.le
    _ = B64.ulp q / 2 := by ring

/-- The nearest multiple of the spacing to a rational that is not negative is not
negative. -/
theorem B64.nearest_nonneg (q : ℚ) (hq : 0 ≤ q) : 0 ≤ B64.nearest q := by
  have hr : (0 : ℚ) ≤ (roundHalfEven (q / B64.ulp q) : ℚ) := by
    exact_mod_cast roundHalfEven_nonneg _ (div_nonneg hq (B64.ulp_pos q).le)
  exact mul_nonneg hr (B64.ulp_pos q).le

/-- Rounding zero gives the zero of the given sign. -/
theorem B64.round_zero (s : Bool) : B64.round s 0 = B64.fin s 0 := by
  unfold B64.round
  rw [if_pos (le_refl 0)]

/-- Rounding a positive magnitude that stays below `2^1024`. -/
theorem B64.round_of_lt (s : Bool) (q : ℚ) (hq : 0 < q)
    (h : B64.nearest q < B64.pow2 1024) : B64.round s q = B64.fin s (B64.nearest q) := by
  unfold B64.round
  rw [if_neg (not_le.mpr hq), if_neg (not_le.mpr h)]

/-- A rounding gives a finite value of the given sign, with a magnitude that is not
negative, or the infinity of that sign. -/
theorem B64.round_cases (s : Bool) (q : ℚ) :
    (∃ v : ℚ, 0 ≤ v ∧ B64.round s q = B64.fin s v) ∨ B64.round s q = B64.inf s := by
  by_cases h0 : q ≤ 0
  · left
    exact ⟨0, le_refl 0, by unfold B64.round; rw [if_pos h0]⟩
  · by_cases h1 : B64.pow2 1024 ≤ B64.nearest q
    · right
      unfold B64.round
      rw [if_neg h0, if_pos h1]
    · left
      exact ⟨B64.nearest q, B64.nearest_nonneg q (not_le.mp h0).le,
        B64.round_of_lt s q (not_le.mp h0) (not_le.mp h1)⟩

/-- Rounding does not pass a power of two: at most `2^k`, with `k` in the exponent range,
the result is finite and at most `2^k`. -/
theorem B64.round_le_pow2 (s : Bool) (q : ℚ) (k : Int) (hq : q ≤ B64.pow2 k)
    (hk1 : -1022 ≤ k) (hk2 : k ≤ 1023) :
    ∃ v : ℚ, B64.round s q = B64.fin s v ∧ 0 ≤ v ∧ v ≤ B64.pow2 k := by
  by_cases h0 : q ≤ 0
  · exact ⟨0, by unfold B64.round; rw [if_pos h0], le_refl 0, (B64.pow2_pos k).le⟩
  · have hq0 : 0 < q := not_le.mp h0
    obtain ⟨he1, _⟩ := B64.expOf_spec q hq0
    have hek : B64.expOf q ≤ k := by
      by_contra hcon
      have := B64.pow2_lt_pow2 (not_le.mp hcon)
      linarith
    have hE : max (B64.expOf q) (-1022) ≤ k := max_le hek hk1
    have hu : B64.ulp q = B64.pow2 (max (B64.expOf q) (-1022) - 52) := rfl
    have hupos := B64.ulp_pos q
    -- the bound `2^k` is a whole number of spacings
    obtain ⟨n, hn⟩ := Int.eq_ofNat_of_zero_le
      (show 0 ≤ k - (max (B64.expOf q) (-1022) - 52) by omega)
    have hkn : B64.pow2 k = ((2 ^ n : Nat) : ℚ) * B64.ulp q := by
      have hsplit : k = (n : Int) + (max (B64.expOf q) (-1022) - 52) := by omega
      have hpn : B64.pow2 (n : Int) = ((2 ^ n : Nat) : ℚ) := by
        rw [B64.pow2_eq_zpow]; push_cast; rw [zpow_natCast]
      calc B64.pow2 k = B64.pow2 ((n : Int) + (max (B64.expOf q) (-1022) - 52)) :=
            congrArg B64.pow2 hsplit
        _ = B64.pow2 (n : Int) * B64.pow2 (max (B64.expOf q) (-1022) - 52) := B64.pow2_add _ _
        _ = ((2 ^ n : Nat) : ℚ) * B64.ulp q := by rw [hpn, hu]
    have hdiv : q / B64.ulp q ≤ (((2 ^ n : Nat) : Int) : ℚ) := by
      rw [div_le_iff₀ hupos]
      rw [hkn] at hq
      exact_mod_cast hq
    have hr := roundHalfEven_le_of_le _ _ hdiv
    have hrq : (roundHalfEven (q / B64.ulp q) : ℚ) ≤ ((2 ^ n : Nat) : ℚ) := by
      exact_mod_cast hr
    have hv : B64.nearest q ≤ B64.pow2 k := by
      rw [hkn]
      exact mul_le_mul_of_nonneg_right hrq hupos.le
    have hlt : B64.nearest q < B64.pow2 1024 :=
      lt_of_le_of_lt hv (B64.pow2_lt_pow2 (by omega))
    exact ⟨_, B64.round_of_lt s q hq0 hlt, B64.nearest_nonneg q hq0.le, hv⟩

/-- In the normal range the rounded magnitude is within the factor `1 ± 2^-53` of the
exact one. -/
theorem B64.round_rel (s : Bool) (q : ℚ) (h1 : B64.pow2 (-1022) ≤ q)
    (h2 : q ≤ B64.pow2 1023) :
    ∃ v : ℚ, B64.round s q = B64.fin s v
      ∧ q * (1 - 1 / 2 ^ 53) ≤ v ∧ v ≤ q * (1 + 1 / 2 ^ 53) := by
  have hq0 : 0 < q := lt_of_lt_of_le (B64.pow2_pos _) h1
  obtain ⟨v, hv, _, hvk⟩ := B64.round_le_pow2 s q 1023 h2 (by omega) (by omega)
  have hlt : B64.nearest q < B64.pow2 1024 := by
    by_contra hcon
    have hinf : B64.round s q = B64.inf s := by
      unfold B64.round
      rw [if_neg (not_le.mpr hq0), if_pos (not_lt.mp hcon)]
    rw [hinf] at hv
    exact B64.noConfusion hv
  refine ⟨B64.nearest q, B64.round_of_lt s q hq0 hlt, ?_⟩
  obtain ⟨he1, he2⟩ := B64.expOf_spec q hq0
  have hexp : -1022 ≤ B64.expOf q := by
    by_contra hcon
    have hlt : B64.expOf q + 1 ≤ -1022 := by omega
    have := B64.pow2_le_pow2 hlt
    linarith
  have h52 : B64.pow2 (-52) = 1 / 2 ^ 52 := by
    rw [B64.pow2_eq_zpow]; norm_num
  have hulp : B64.ulp q = B64.pow2 (B64.expOf q) * (1 / 2 ^ 52) := by
    have : B64.ulp q = B64.pow2 (B64.expOf q + (-52)) := by
      unfold B64.ulp
      rw [max_eq_left hexp]
      rfl
    rw [this, B64.pow2_add, h52]
  have herr := B64.abs_nearest_sub_le q
  rw [abs_le] at herr
  have hu2 : B64.ulp q / 2 ≤ q * (1 / 2 ^ 53) := by
    rw [hulp]
    have : B64.pow2 (B64.expOf q) * (1 / 2 ^ 52) / 2
        = B64.pow2 (B64.expOf q) * (1 / 2 ^ 53) := by ring
    rw [this]
    exact mul_le_mul_of_nonneg_right he1 (by positivity)
  constructor <;> linarith [herr.1, herr.2]

/-! ## The constants as machine numbers -/

theorem B64.ofRat_zero : B64.ofRat 0 = B64.fin false 0 := by decide!

theorem Ieee.lenStep_eq :
    Ieee.lenStep = B64.fin false (5854679515581645 / 9007199254740992) := by decide!

theorem Ieee.mInKm_eq : Ieee.mInKm = B64.fin false 1000 := by decide!

theorem Ieee.swimmingShift_eq :
    Ieee.swimmingCaloriesMeanSpeedShift
      = B64.fin false (2476979795053773 / 2251799813685248) := by decide!

theorem Ieee.swimmingMultiplier_eq :
    Ieee.swimmingCaloriesWeightMultiplier = B64.fin false 2 := by decide!

theorem B64.mul_fin_fin (s t : Bool) (a b : ℚ) :
    B64.fin s a * B64.fin t b = B64.round (xor s t) (a * b) := rfl

theorem B64.div_fin_fin_all (s t : Bool) (a b : ℚ) :
    B64.fin s a / B64.fin t b
      = if b = 0 then (if a = 0 then B64.nan else B64.inf (xor s t))
        else B64.round (xor s t) (a / b) := rfl

theorem B64.div_fin_fin (s t : Bool) (a b : ℚ) (hb : b ≠ 0) :
    B64.fin s a / B64.fin t b = B64.round (xor s t) (a / b) := by
  rw [B64.div_fin_fin_all, if_neg hb]

theorem B64.inf_mul_fin (s t : Bool) (b : ℚ) :
    B64.inf s * B64.fin t b = if b = 0 then B64.nan else B64.inf (xor s t) := rfl

theorem B64.fin_mul_inf (s t : Bool) (a : ℚ) :
    B64.fin s a * B64.inf t = if a = 0 then B64.nan else B64.inf (xor s t) := rfl

theorem B64.add_fin_fin (s t : Bool) (a b : ℚ) :
    B64.fin s a + B64.fin t b
      = if B64.signed s a + B64.signed t b = 0 then B64.fin (s && t) 0
        else B64.ofRat (B64.signed s a + B64.signed t b) := rfl

theorem B64.mathPow2_fin (s : Bool) (a : ℚ) :
    B64.mathPow2 (B64.fin s a)
      = if a = 0 then B64.fin false 0 else B64.round false (B64.round53 (a * a)) := rfl

/-- A finite value times a zero is a zero. -/
theorem B64.fin_mul_zero (s t : Bool) (a : ℚ) :
    B64.fin s a * B64.fin t 0 = B64.fin (xor s t) 0 := by
  rw [B64.mul_fin_fin, mul_zero, B64.round_zero]

/-- A zero times a finite value is a zero. -/
theorem B64.zero_mul_fin (s t : Bool) (b : ℚ) :
    B64.fin s 0 * B64.fin t b = B64.fin (xor s t) 0 := by
  rw [B64.mul_fin_fin, zero_mul, B64.round_zero]

/-- A zero over a finite value other than zero is a zero. -/
theorem B64.zero_div_fin (s t : Bool) (b : ℚ) (hb : b ≠ 0) :
    B64.fin s 0 / B64.fin t b = B64.fin (xor s t) 0 := by
  rw [B64.div_fin_fin s t 0 b hb, zero_div, B64.round_zero]

/-- The guard `duration == 0` holds for both zeros. -/
theorem B64.beq_zero (s : Bool) : B64.beq (B64.fin s 0) (B64.ofRat 0) = true := by
  cases s <;> decide!

/-- The guard `duration == 0` fails for a finite value with a magnitude other than zero. -/
theorem B64.beq_zero_of_ne (s : Bool) (a : ℚ) (ha : a ≠ 0) :
    B64.beq (B64.fin s a) (B64.ofRat 0) = false := by
  rw [B64.ofRat_zero]
  cases s <;> simp [B64.beq, B64.signed, ha]

/-! ## The report on machine numbers -/

/-- The running case of `showTrainingInfo` on machine numbers. -/
theorem Ieee.report_running (action : Int) (duration weight height : B64)
    (lengthPool countPool : Int) :
    Ieee.showTrainingInfo action "Бег" duration weight height lengthPool countPool
      = Ieee.sprintfReport "Бег" duration (Ieee.distance action)
          (Ieee.meanSpeed (Ieee.distance action) duration)
          (Ieee.runningSpentCalories weight duration
            (Ieee.meanSpeed (Ieee.distance action) duration)) := by
  simp [Ieee.showTrainingInfo]

/-- The walking case of `showTrainingInfo` on machine numbers. -/
theorem Ieee.report_walking (action : Int) (duration weight height : B64)
    (lengthPool countPool : Int) :
    Ieee.showTrainingInfo action "Ходьба" duration weight height lengthPool countPool
      = Ieee.sprintfReport "Ходьба" duration (Ieee.distance action)
          (Ieee.meanSpeed (Ieee.distance action) duration)
          (Ieee.walkingSpentCalories duration weight height
            (Ieee.meanSpeed (Ieee.distance action) duration)) := by
  have h : ("Ходьба" : String) ≠ "Бег" := by decide
  simp [Ieee.showTrainingInfo, h]

/-- The swimming case of `showTrainingInfo` on machine numbers. -/
theorem Ieee.report_swimming (action : Int) (duration weight height : B64)
    (lengthPool countPool : Int) :
    Ieee.showTrainingInfo action "Плавание" duration weight height lengthPool countPool
      = Ieee.sprintfReport "Плавание" duration (Ieee.distance action)
          (Ieee.swimmingMeanSpeed lengthPool countPool duration)
          (Ieee.swimmingSpentCalories duration weight
            (Ieee.swimmingMeanSpeed lengthPool countPool duration)) := by
  have h1 : ("Плавание" : String) ≠ "Бег" := by decide
  have h2 : ("Плавание" : String) ≠ "Ходьба" := by decide
  simp [Ieee.showTrainingInfo, h1, h2]

/-- For a recognised training type the result is the formatted report of that type and of
the given duration. -/
theorem Ieee.showTrainingInfo_is_report (action : Int) (t : String)
    (duration weight height : B64) (lengthPool countPool : Int)
    (ht : t = "Бег" ∨ t = "Ходьба" ∨ t = "Плавание") :
    ∃ dist speed cal : B64,
      Ieee.showTrainingInfo action t duration weight height lengthPool countPool
        = Ieee.sprintfReport t duration dist speed cal := by
  rcases ht with h | h | h <;> subst h
  · exact ⟨_, _, _, Ieee.report_running action duration weight height lengthPool countPool⟩
  · exact ⟨_, _, _, Ieee.report_walking action duration weight height lengthPool countPool⟩
  · exact ⟨_, _, _, Ieee.report_swimming action duration weight height lengthPool countPool⟩

/-- The text that `%.2f` gives for a finite machine number. -/
theorem Ieee.formatFixed2_text (s : Bool) (a : ℚ) :
    Ieee.formatFixed2 (B64.fin s a)
      = String.mk ((if s then ['-'] else [])
          ++ (toString ((roundHalfEven (a * 100)).toNat / 100)).data
          ++ ['.', Nat.digitChar ((roundHalfEven (a * 100)).toNat / 10 % 10),
              Nat.digitChar ((roundHalfEven (a * 100)).toNat % 10)]) := by
  apply String.ext
  cases s <;> simp [Ieee.formatFixed2, String.data_append]

/-- A finite machine number is rendered with exactly two digits after the point. -/
theorem Ieee.isFixed2_formatFixed2 (x : B64) (hx : x.isFinite = true) :
    isFixed2 (Ieee.formatFixed2 x) = true := by
  cases x with
  | fin s a =>
    rw [Ieee.formatFixed2_text]
    exact isFixed2_of_parts _ _ _ _ (isDigits_repr _) (digitChar_mod_ten_isDigit _)
      (digitChar_mod_ten_isDigit _)
  | inf s => simp [B64.isFinite] at hx
  | nan => simp [B64.isFinite] at hx

/-- A machine number that is not finite is rendered as `+Inf`, `-Inf` or `NaN`. -/
theorem Ieee.formatFixed2_not_finite (x : B64) (hx : x.isFinite = false) :
    Ieee.formatFixed2 x = "+Inf" ∨ Ieee.formatFixed2 x = "-Inf"
      ∨ Ieee.formatFixed2 x = "NaN" := by
  cases x with
  | fin s a => simp [B64.isFinite] at hx
  | inf s => cases s <;> simp [Ieee.formatFixed2]
  | nan => simp [Ieee.formatFixed2]

/-- Claim C14 refuted as stated: walking 4000 steps in one hour at 85 kg with height 0 is an
input with a recognised type whose calories are `+Inf`, and the report renders them as
"+Inf", without any digit after a point; so does running at the finite weight 1e308. -/
theorem showTrainingInfo_renders_inf :
    Ieee.walkingSpentCalories (B64.ofRat 1) (B64.ofRat 85) (B64.ofRat 0)
        (Ieee.meanSpeed (Ieee.distance 4000) (B64.ofRat 1)) = B64.inf false
    ∧ Ieee.showTrainingInfo 4000 "Ходьба" (B64.ofRat 1) (B64.ofRat 85) (B64.ofRat 0) 50 10
        = "Тип тренировки: Ходьба\nДлительность: 1.00 ч.\nДистанция: 2.60 км.\nСкорость: 2.60 км/ч\nСожгли калорий: +Inf\n"
    ∧ Ieee.showTrainingInfo 4000 "Бег" (B64.ofRat 1) (B64.ofRat 1e308) (B64.ofRat 185) 50 10
        = "Тип тренировки: Бег\nДлительность: 1.00 ч.\nДистанция: 2.60 км.\nСкорость: 2.60 км/ч\nСожгли калорий: +Inf\n"
    ∧ isFixed2 (Ieee.formatFixed2 (B64.inf false)) = false := by
  decide!

/-- Claim C14 as amended: for every input with a recognised training type the report is the
template filled with duration, distance, speed and calories as `%.2f` renders them; each of
these values that is finite is rendered with exactly 2 digits after the decimal point, and
one that is not finite is rendered as `+Inf`, `-Inf` or `NaN`. -/
theorem showTrainingInfo_two_decimals_if_finite :
    (∀ (action : Int) (t : String) (duration weight height : B64)
        (lengthPool countPool : Int),
      (t = "Бег" ∨ t = "Ходьба" ∨ t = "Плавание") →
      ∃ dist speed cal : B64,
        Ieee.showTrainingInfo action t duration weight height lengthPool countPool
          = "Тип тренировки: " ++ t
            ++ "\nДлительность: " ++ Ieee.formatFixed2 duration
            ++ " ч.\nДистанция: " ++ Ieee.formatFixed2 dist
            ++ " км.\nСкорость: " ++ Ieee.formatFixed2 speed
            ++ " км/ч\nСожгли калорий: " ++ Ieee.formatFixed2 cal ++ "\n")
    ∧ (∀ x : B64, x.isFinite = true → isFixed2 (Ieee.formatFixed2 x) = true)
    ∧ (∀ x : B64, x.isFinite = false →
        Ieee.formatFixed2 x = "+Inf" ∨ Ieee.formatFixed2 x = "-Inf"
          ∨ Ieee.formatFixed2 x = "NaN") :=
  ⟨fun action t duration weight height lengthPool countPool ht =>
      Ieee.showTrainingInfo_is_report action t duration weight height lengthPool countPool ht,
    Ieee.isFixed2_formatFixed2, Ieee.formatFixed2_not_finite⟩

/-- Witness of C14 as amended: walking 4000 steps in one hour at 85 kg and 185 cm, and the
rendering of the finite value 2.6. -/
theorem showTrainingInfo_two_decimals_if_finite_witness :
    (∃ dist speed cal : B64,
      Ieee.showTrainingInfo 4000 "Ходьба" (B64.ofRat 1) (B64.ofRat 85) (B64.ofRat 185) 50 10
        = "Тип тренировки: " ++ "Ходьба"
          ++ "\nДлительность: " ++ Ieee.formatFixed2 (B64.ofRat 1)
          ++ " ч.\nДистанция: " ++ Ieee.formatFixed2 dist
          ++ " км.\nСкорость: " ++ Ieee.formatFixed2 speed
          ++ " км/ч\nСожгли калорий: " ++ Ieee.formatFixed2 cal ++ "\n")
    ∧ isFixed2 (Ieee.formatFixed2 (B64.fin false 2.6)) = true :=
  ⟨showTrainingInfo_two_decimals_if_finite.1 4000 "Ходьба" (B64.ofRat 1) (B64.ofRat 85)
      (B64.ofRat 185) 50 10 (Or.inr (Or.inl rfl)),
    showTrainingInfo_two_decimals_if_finite.2.1 (B64.fin false 2.6) rfl⟩

/-! ## The distance on machine numbers -/

theorem B64.pow2_neg1022_le_half : B64.pow2 (-1022) ≤ 1 / 2 := by
  have h : B64.pow2 (-1022) ≤ B64.pow2 (-1) := B64.pow2_le_pow2 (by norm_num)
  have h1 : B64.pow2 (-1) = 1 / 2 := by rw [B64.pow2_eq_zpow]; norm_num
  rw [h1] at h
  exact h

theorem B64.two_pow_le_pow2_1023 (k : Nat) (hk : k ≤ 1023) :
    (2 : ℚ) ^ k ≤ B64.pow2 1023 := by
  have h : B64.pow2 (k : Int) ≤ B64.pow2 1023 := B64.pow2_le_pow2 (by omega)
  rw [B64.pow2_eq_zpow, zpow_natCast] at h
  exact h

/-- One rounding step in the normal range, with the bounds given as plain numbers. -/
theorem B64.round_rel_of_bounds (s : Bool) (q : ℚ) (k : Nat) (hk : k ≤ 1023)
    (h1 : 1 / 2 ≤ q) (h2 : q ≤ 2 ^ k) :
    ∃ v : ℚ, B64.round s q = B64.fin s v
      ∧ q * (1 - 1 / 2 ^ 53) ≤ v ∧ v ≤ q * (1 + 1 / 2 ^ 53) :=
  B64.round_rel s q (le_trans B64.pow2_neg1022_le_half h1)
    (le_trans h2 (B64.two_pow_le_pow2_1023 k hk))

/-- The distance of `n` actions, for an `int` of 64 bits: a finite value with the sign of
`n`, within the factor `1 ± 2^-50` of `|n| × 0.00065`. -/
theorem Ieee.distance_shape (n : Int) (hn : |n| ≤ 2 ^ 63) :
    ∃ v : ℚ, Ieee.distance n = B64.fin (decide ((n : ℚ) < 0)) v
      ∧ |(n : ℚ)| * 0.00065 * (1 - 1 / 2 ^ 50) ≤ v
      ∧ v ≤ |(n : ℚ)| * 0.00065 * (1 + 1 / 2 ^ 50) := by
  have hdef : Ieee.distance n
      = B64.round (decide ((n : ℚ) < 0)) |(n : ℚ)| * Ieee.lenStep / Ieee.mInKm := rfl
  rw [hdef, Ieee.lenStep_eq, Ieee.mInKm_eq]
  by_cases h0 : n = 0
  · subst h0
    refine ⟨0, ?_, by norm_num, by norm_num⟩
    simp only [Int.cast_zero, abs_zero, B64.round_zero]
    rw [B64.zero_mul_fin, B64.zero_div_fin _ _ _ (by norm_num)]
    simp
  · set m : ℚ := |(n : ℚ)| with hm
    set s : Bool := decide ((n : ℚ) < 0) with hs
    have hm1 : (1 : ℚ) ≤ m := by
      have : (1 : Int) ≤ |n| := Int.one_le_abs h0
      have h' : ((1 : Int) : ℚ) ≤ ((|n| : Int) : ℚ) := by exact_mod_cast this
      simpa [hm, Int.cast_abs] using h'
    have hm2 : m ≤ 2 ^ 63 := by
      have h' : ((|n| : Int) : ℚ) ≤ ((2 ^ 63 : Int) : ℚ) := by exact_mod_cast hn
      simpa [hm, Int.cast_abs] using h'
    obtain ⟨v1, e1, lo1, hi1⟩ :=
      B64.round_rel_of_bounds s m 63 (by norm_num) (by linarith) hm2
    have hv1 : 0 ≤ v1 := le_trans (by positivity) lo1
    rw [e1, B64.mul_fin_fin]
    have hq2lo : 1 / 2 ≤ v1 * (5854679515581645 / 9007199254740992) := by nlinarith
    have hq2hi : v1 * (5854679515581645 / 9007199254740992) ≤ 2 ^ 64 := by nlinarith
    obtain ⟨v2, e2, lo2, hi2⟩ := B64.round_rel_of_bounds (xor s false)
      (v1 * (5854679515581645 / 9007199254740992)) 64 (by norm_num) hq2lo hq2hi
    have hv2 : 0 ≤ v2 := le_trans (by positivity) lo2
    rw [e2, B64.div_fin_fin _ _ _ _ (by norm_num)]
    have hq3lo : B64.pow2 (-1022) ≤ v2 / 1000 := by
      have h : B64.pow2 (-1022) ≤ B64.pow2 (-12) := B64.pow2_le_pow2 (by norm_num)
      have h1 : B64.pow2 (-12) = 1 / 4096 := by rw [B64.pow2_eq_zpow]; norm_num
      rw [h1] at h
      have : (1 : ℚ) / 4096 ≤ v2 / 1000 := by
        rw [div_le_div_iff₀ (by norm_num) (by norm_num)]
        nlinarith
      linarith
    have hq3hi : v2 / 1000 ≤ B64.pow2 1023 := by
      have : v2 / 1000 ≤ 2 ^ 64 := by
        rw [div_le_iff₀ (by norm_num)]
        nlinarith
      exact le_trans this (B64.two_pow_le_pow2_1023 64 (by norm_num))
    obtain ⟨v3, e3, lo3, hi3⟩ := B64.round_rel (xor (xor s false) false) (v2 / 1000) hq3lo hq3hi
    refine ⟨v3, ?_, ?_, ?_⟩
    · rw [e3]; simp
    · have c1 : m * (1 - 1 / 2 ^ 53) * (5854679515581645 / 9007199254740992)
          ≤ v1 * (5854679515581645 / 9007199254740992) :=
        mul_le_mul_of_nonneg_right lo1 (by norm_num)
      have c2 : m * (1 - 1 / 2 ^ 53) * (5854679515581645 / 9007199254740992)
          * (1 - 1 / 2 ^ 53) ≤ v2 :=
        le_trans (mul_le_mul_of_nonneg_right c1 (by norm_num)) lo2
      have c3 : m * (1 - 1 / 2 ^ 53) * (5854679515581645 / 9007199254740992)
          * (1 - 1 / 2 ^ 53) / 1000 * (1 - 1 / 2 ^ 53) ≤ v3 :=
        le_trans (mul_le_mul_of_nonneg_right
          (div_le_div_of_nonneg_right c2 (by norm_num)) (by norm_num)) lo3
      refine le_trans ?_ c3
      have hm0 : 0 ≤ m := by linarith
      have : m * 0.00065 * (1 - 1 / 2 ^ 50)
          = m * (0.00065 * (1 - 1 / 2 ^ 50)) := by ring
      rw [this]
      have : m * (1 - 1 / 2 ^ 53) * (5854679515581645 / 9007199254740992)
          * (1 - 1 / 2 ^ 53) / 1000 * (1 - 1 / 2 ^ 53)
          = m * ((1 - 1 / 2 ^ 53) * (5854679515581645 / 9007199254740992)
              * (1 - 1 / 2 ^ 53) / 1000 * (1 - 1 / 2 ^ 53)) := by ring
      rw [this]
      exact mul_le_mul_of_nonneg_left (by norm_num) hm0
    · have c1 : v1 * (5854679515581645 / 9007199254740992)
          ≤ m * (1 + 1 / 2 ^ 53) * (5854679515581645 / 9007199254740992) :=
        mul_le_mul_of_nonneg_right hi1 (by norm_num)
      have c2 : v2 ≤ m * (1 + 1 / 2 ^ 53) * (5854679515581645 / 9007199254740992)
          * (1 + 1 / 2 ^ 53) :=
        le_trans hi2 (mul_le_mul_of_nonneg_right c1 (by norm_num))
      have c3 : v3 ≤ m * (1 + 1 / 2 ^ 53) * (5854679515581645 / 9007199254740992)
          * (1 + 1 / 2 ^ 53) / 1000 * (1 + 1 / 2 ^ 53) :=
        le_trans hi3 (mul_le_mul_of_nonneg_right
          (div_le_div_of_nonneg_right c2 (by norm_num)) (by norm_num))
      refine le_trans c3 ?_
      have hm0 : 0 ≤ m := by linarith
      have : m * 0.00065 * (1 + 1 / 2 ^ 50)
          = m * (0.00065 * (1 + 1 / 2 ^ 50)) := by ring
      rw [this]
      have : m * (1 + 1 / 2 ^ 53) * (5854679515581645 / 9007199254740992)
          * (1 + 1 / 2 ^ 53) / 1000 * (1 + 1 / 2 ^ 53)
          = m * ((1 + 1 / 2 ^ 53) * (5854679515581645 / 9007199254740992)
              * (1 + 1 / 2 ^ 53) / 1000 * (1 + 1 / 2 ^ 53)) := by ring
      rw [this]
      exact mul_le_mul_of_nonneg_left (by norm_num) hm0

/-- Claim C9 refuted as stated: `distance(3)` is neither the `float64` nearest to
`3 × 0.00065`, nor the `float64` product of 3 and 0.00065, nor the rational `3 × 0.00065`. -/
theorem distance_three_not_formula :
    Ieee.distance 3 = B64.fin false (8992787735933407 / 4611686018427387904)
    ∧ Ieee.distance 3 ≠ B64.ofRat (3 * 0.00065)
    ∧ Ieee.distance 3 ≠ B64.ofInt 3 * B64.ofRat 0.00065
    ∧ Ieee.distance 3 ≠ B64.fin false (3 * 0.00065) := by
  decide!

/-- Claim C9 as amended: for every action count `n` of a 64-bit `int` with `n ≥ 0`,
`distance(n)` is `float64(n) × 0.65 / 1000` as `float64` evaluates it (the conversion, the
product and the quotient each rounded to nearest); it is finite, not negative, and equals
`n × 0.00065` up to a relative error of `2^-50`. -/
theorem distance_rounded_formula (n : Int) (h0 : 0 ≤ n) (h63 : n < 2 ^ 63) :
    Ieee.distance n = B64.ofInt n * B64.ofRat 0.65 / B64.ofRat 1000
    ∧ ∃ v : ℚ, Ieee.distance n = B64.fin false v
        ∧ |v - (n : ℚ) * 0.00065| ≤ (n : ℚ) * 0.00065 / 2 ^ 50 := by
  refine ⟨rfl, ?_⟩
  have habs : |n| ≤ 2 ^ 63 := by rw [abs_of_nonneg h0]; omega
  obtain ⟨v, hv, lo, hi⟩ := Ieee.distance_shape n habs
  have hq : (0 : ℚ) ≤ (n : ℚ) := by exact_mod_cast h0
  have hs : decide ((n : ℚ) < 0) = false := by simp [not_lt.mpr hq]
  rw [abs_of_nonneg hq] at lo hi
  rw [hs] at hv
  refine ⟨v, hv, ?_⟩
  rw [abs_le]
  constructor <;> linarith

/-- Witness of C9 as amended: 4000 steps. -/
theorem distance_rounded_formula_witness :
    ((0 : Int) ≤ 4000 ∧ (4000 : Int) < 2 ^ 63)
    ∧ Ieee.distance 4000 = B64.ofInt 4000 * B64.ofRat 0.65 / B64.ofRat 1000
    ∧ ∃ v : ℚ, Ieee.distance 4000 = B64.fin false v
        ∧ |v - ((4000 : Int) : ℚ) * 0.00065| ≤ ((4000 : Int) : ℚ) * 0.00065 / 2 ^ 50 :=
  ⟨⟨by decide, by decide⟩, distance_rounded_formula 4000 (by decide) (by decide)⟩

/-! ## Speed against distance on machine numbers -/

/-- Claim C17 refuted as stated: for 10 steps in 0.1 hours the duration is not 0, and
`meanSpeed(distance(10), 0.1) × 0.1` is not `distance(10)`. -/
theorem meanSpeed_mul_duration_ne :
    B64.beq (B64.ofRat 0.1) (B64.ofRat 0) = false
    ∧ Ieee.distance 10 = B64.fin false (7493989779944505 / 1152921504606846976)
    ∧ Ieee.meanSpeed (Ieee.distance 10) (B64.ofRat 0.1) * B64.ofRat 0.1
        = B64.fin false (936748722493063 / 144115188075855872)
    ∧ Ieee.meanSpeed (Ieee.distance 10) (B64.ofRat 0.1) * B64.ofRat 0.1
        ≠ Ieee.distance 10 := by
  decide!

/-- Claim C17 as amended: for running and walking the speed agrees with the distance up to
rounding: for every action count `n` of a 64-bit `int` and every finite duration `t` with
`2^-200 ≤ |t| ≤ 2^200`, `meanSpeed(distance(n), t) × t` is finite, has the sign of
`distance(n)`, and differs from `distance(n)` by at most `2^-51` times `distance(n)`. -/
theorem meanSpeed_mul_duration_close (n : Int) (st : Bool) (tm : ℚ) (hn : |n| ≤ 2 ^ 63)
    (ht1 : 1 / 2 ^ 200 ≤ tm) (ht2 : tm ≤ 2 ^ 200) :
    ∃ d y : ℚ, Ieee.distance n = B64.fin (decide ((n : ℚ) < 0)) d
      ∧ Ieee.meanSpeed (Ieee.distance n) (B64.fin st tm) * B64.fin st tm
          = B64.fin (decide ((n : ℚ) < 0)) y
      ∧ |y - d| ≤ d / 2 ^ 51 := by
  obtain ⟨d, hd, lo, hi⟩ := Ieee.distance_shape n hn
  have htpos : 0 < tm := lt_of_lt_of_le (by positivity) ht1
  have htne : tm ≠ 0 := ne_of_gt htpos
  have hxor : ∀ a b : Bool, xor (xor a b) b = a := by decide
  have hms : Ieee.meanSpeed (Ieee.distance n) (B64.fin st tm)
      = B64.round (xor (decide ((n : ℚ) < 0)) st) (d / tm) := by
    unfold Ieee.meanSpeed
    rw [B64.beq_zero_of_ne st tm htne, hd]
    simp only [Bool.false_eq_true, if_false]
    exact B64.div_fin_fin _ _ _ _ htne
  rw [hms]
  by_cases h0 : n = 0
  · subst h0
    have hd0 : d = 0 := by
      simp only [Int.cast_zero, abs_zero, zero_mul] at lo hi
      linarith
    subst hd0
    refine ⟨0, 0, hd, ?_, by norm_num⟩
    rw [zero_div, B64.round_zero, B64.zero_mul_fin, hxor]
  · have hm1 : (1 : ℚ) ≤ |(n : ℚ)| := by
      have : (1 : Int) ≤ |n| := Int.one_le_abs h0
      have h' : ((1 : Int) : ℚ) ≤ ((|n| : Int) : ℚ) := by exact_mod_cast this
      simpa [Int.cast_abs] using h'
    have hm2 : |(n : ℚ)| ≤ 2 ^ 63 := by
      have h' : ((|n| : Int) : ℚ) ≤ ((2 ^ 63 : Int) : ℚ) := by exact_mod_cast hn
      simpa [Int.cast_abs] using h'
    have hdlo : 1 / 2 ^ 11 ≤ d := by nlinarith
    have hdhi : d ≤ 2 ^ 53 := by nlinarith
    have hdpos : 0 < d := lt_of_lt_of_le (by positivity) hdlo
    -- the quotient
    have hq1lo : B64.pow2 (-1022) ≤ d / tm := by
      have h : B64.pow2 (-1022) ≤ B64.pow2 (-211) := B64.pow2_le_pow2 (by norm_num)
      have h1 : B64.pow2 (-211) = 1 / 2 ^ 211 := by rw [B64.pow2_eq_zpow]; norm_num
      rw [h1] at h
      refine le_trans h ?_
      rw [div_le_div_iff₀ (by positivity) htpos]
      calc (1 : ℚ) * tm ≤ 1 * 2 ^ 200 := by linarith
        _ = 1 / 2 ^ 11 * 2 ^ 211 := by norm_num
        _ ≤ d * 2 ^ 211 := mul_le_mul_of_nonneg_right hdlo (by positivity)
    have hq1hi : d / tm ≤ B64.pow2 1023 := by
      refine le_trans ?_ (B64.two_pow_le_pow2_1023 253 (by norm_num))
      rw [div_le_iff₀ htpos]
      calc d ≤ 2 ^ 53 := hdhi
        _ = 2 ^ 253 * (1 / 2 ^ 200) := by norm_num
        _ ≤ 2 ^ 253 * tm := mul_le_mul_of_nonneg_left ht1 (by positivity)
    obtain ⟨s1, e1, lo1, hi1⟩ :=
      B64.round_rel (xor (decide ((n : ℚ) < 0)) st) (d / tm) hq1lo hq1hi
    rw [e1, B64.mul_fin_fin, hxor]
    -- the product
    have hdt : d / tm * tm = d := div_mul_cancel₀ d htne
    have lo1' : d * (1 - 1 / 2 ^ 53) ≤ s1 * tm := by
      have := mul_le_mul_of_nonneg_right lo1 htpos.le
      calc d * (1 - 1 / 2 ^ 53) = d / tm * (1 - 1 / 2 ^ 53) * tm := by
            rw [mul_right_comm, hdt]
        _ ≤ s1 * tm := this
    have hi1' : s1 * tm ≤ d * (1 + 1 / 2 ^ 53) := by
      have := mul_le_mul_of_nonneg_right hi1 htpos.le
      calc s1 * tm ≤ d / tm * (1 + 1 / 2 ^ 53) * tm := this
        _ = d * (1 + 1 / 2 ^ 53) := by rw [mul_right_comm, hdt]
    have hq2lo : 1 / 2 ≤ 2 ^ 12 * (s1 * tm) := by nlinarith
    have hq2lo' : B64.pow2 (-1022) ≤ s1 * tm := by
      have h : B64.pow2 (-1022) ≤ B64.pow2 (-13) := B64.pow2_le_pow2 (by norm_num)
      have h1 : B64.pow2 (-13) = 1 / 2 ^ 13 := by rw [B64.pow2_eq_zpow]; norm_num
      rw [h1] at h
      refine le_trans h ?_
      nlinarith
    have hq2hi : s1 * tm ≤ B64.pow2 1023 := by
      refine le_trans ?_ (B64.two_pow_le_pow2_1023 54 (by norm_num))
      nlinarith
    obtain ⟨y, e2, lo2, hi2⟩ :=
      B64.round_rel (decide ((n : ℚ) < 0)) (s1 * tm) hq2lo' hq2hi
    refine ⟨d, y, hd, e2, ?_⟩
    have l3 : d * (1 - 1 / 2 ^ 53) * (1 - 1 / 2 ^ 53) ≤ y :=
      le_trans (mul_le_mul_of_nonneg_right lo1' (by norm_num)) lo2
    have h3 : y ≤ d * (1 + 1 / 2 ^ 53) * (1 + 1 / 2 ^ 53) :=
      le_trans hi2 (mul_le_mul_of_nonneg_right hi1' (by norm_num))
    rw [abs_le]
    constructor
    · have : d * (1 - 1 / 2 ^ 51) ≤ d * (1 - 1 / 2 ^ 53) * (1 - 1 / 2 ^ 53) := by
        rw [mul_assoc]
        exact mul_le_mul_of_nonneg_left (by norm_num) hdpos.le
      linarith
    · have : d * (1 + 1 / 2 ^ 53) * (1 + 1 / 2 ^ 53) ≤ d * (1 + 1 / 2 ^ 51) := by
        rw [mul_assoc]
        exact mul_le_mul_of_nonneg_left (by norm_num) hdpos.le
      linarith

/-- Witness of C17 as amended: 10 steps in 0.1 hours. -/
theorem meanSpeed_mul_duration_close_witness :
    ((|(10 : Int)| ≤ 2 ^ 63) ∧ ((1 : ℚ) / 2 ^ 200 ≤ 3602879701896397 / 36028797018963968)
      ∧ ((3602879701896397 / 36028797018963968 : ℚ) ≤ 2 ^ 200))
    ∧ ∃ d y : ℚ, Ieee.distance 10 = B64.fin (decide (((10 : Int) : ℚ) < 0)) d
      ∧ Ieee.meanSpeed (Ieee.distance 10)
            (B64.fin false (3602879701896397 / 36028797018963968))
          * B64.fin false (3602879701896397 / 36028797018963968)
          = B64.fin (decide (((10 : Int) : ℚ) < 0)) y
      ∧ |y - d| ≤ d / 2 ^ 51 :=
  ⟨⟨by decide, by norm_num, by norm_num⟩,
    meanSpeed_mul_duration_close 10 false (3602879701896397 / 36028797018963968)
      (by decide) (by norm_num) (by norm_num)⟩

/-! ## Integers on machine numbers -/

/-- A natural number up to `2^53` is a `float64`: rounding leaves it unchanged. -/
theorem B64.round_natCast (s : Bool) (k : Nat) (hk : k ≤ 2 ^ 53) :
    B64.round s (k : ℚ) = B64.fin s (k : ℚ) := by
  by_cases h0 : k = 0
  · subst h0
    simp [B64.round_zero]
  · have hkpos : (0 : ℚ) < (k : ℚ) := by exact_mod_cast Nat.pos_of_ne_zero h0
    have hk1 : (1 : ℚ) ≤ (k : ℚ) := by exact_mod_cast Nat.pos_of_ne_zero h0
    have hk53 : (k : ℚ) ≤ 2 ^ 53 := by exact_mod_cast hk
    obtain ⟨he1, he2⟩ := B64.expOf_spec (k : ℚ) hkpos
    have hp0 : B64.pow2 0 = 1 := by rw [B64.pow2_eq_zpow]; norm_num
    have hp53 : B64.pow2 53 = 2 ^ 53 := by rw [B64.pow2_eq_zpow]; norm_num
    have hege : 0 ≤ B64.expOf (k : ℚ) := by
      by_contra hcon
      have : B64.pow2 (B64.expOf (k : ℚ) + 1) ≤ B64.pow2 0 := B64.pow2_le_pow2 (by omega)
      linarith
    have hele : B64.expOf (k : ℚ) ≤ 53 := by
      by_contra hcon
      have : B64.pow2 53 < B64.pow2 (B64.expOf (k : ℚ)) := B64.pow2_lt_pow2 (by omega)
      linarith
    have hulp : B64.ulp (k : ℚ) = B64.pow2 (B64.expOf (k : ℚ) - 52) := by
      unfold B64.ulp
      rw [max_eq_left (by omega)]
    -- the number is a whole multiple of its spacing
    have hint : ∃ j : Int, (k : ℚ) / B64.ulp (k : ℚ) = (j : ℚ) := by
      by_cases hcase : B64.expOf (k : ℚ) ≤ 52
      · obtain ⟨i, hi⟩ := Int.eq_ofNat_of_zero_le (show 0 ≤ 52 - B64.expOf (k : ℚ) by omega)
        refine ⟨(k : Int) * 2 ^ i, ?_⟩
        have hu : B64.ulp (k : ℚ) * 2 ^ i = 1 := by
          have h2i : (2 : ℚ) ^ i = B64.pow2 (i : Int) := by
            rw [B64.pow2_eq_zpow, zpow_natCast]
          rw [hulp, h2i, ← B64.pow2_add]
          have : B64.expOf (k : ℚ) - 52 + (i : Int) = 0 := by omega
          rw [this, hp0]
        rw [div_eq_iff (ne_of_gt (B64.ulp_pos _))]
        push_cast
        rw [mul_assoc, mul_comm ((2 : ℚ) ^ i), hu, mul_one]
      · have he53 : B64.expOf (k : ℚ) = 53 := by omega
        have hkeq : (k : ℚ) = 2 ^ 53 := by
          rw [he53, hp53] at he1
          linarith
        refine ⟨2 ^ 52, ?_⟩
        have hu : B64.ulp (k : ℚ) = 2 := by
          rw [hulp, he53, B64.pow2_eq_zpow]; norm_num
        rw [hu, hkeq]
        norm_num
    obtain ⟨j, hj⟩ := hint
    have hnear : B64.nearest (k : ℚ) = (k : ℚ) := by
      unfold B64.nearest
      rw [hj, roundHalfEven_intCast, ← hj]
      exact div_mul_cancel₀ _ (ne_of_gt (B64.ulp_pos _))
    have hlt : B64.nearest (k : ℚ) < B64.pow2 1024 := by
      rw [hnear]
      have : B64.pow2 53 < B64.pow2 1024 := B64.pow2_lt_pow2 (by norm_num)
      linarith
    rw [B64.round_of_lt s _ hkpos hlt, hnear]

/-- The conversion of an integer of magnitude up to `2^53` is exact. -/
theorem B64.ofInt_exact (n : Int) (hn : |n| ≤ 2 ^ 53) :
    B64.ofInt n = B64.fin (decide (n < 0)) ((n.natAbs : Nat) : ℚ) := by
  have habs : |(n : ℚ)| = ((n.natAbs : Nat) : ℚ) := by
    rw [Nat.cast_natAbs, Int.cast_abs]
  have hk : n.natAbs ≤ 2 ^ 53 := by
    have : (n.natAbs : Int) ≤ 2 ^ 53 := by rw [← Int.abs_eq_natAbs]; exact hn
    exact_mod_cast this
  have hs : decide ((n : ℚ) < 0) = decide (n < 0) := by simp
  unfold B64.ofInt B64.ofRat
  rw [habs, hs, B64.round_natCast _ _ hk]

/-- The product of two converted integers is exact as long as it stays within `2^53`. -/
theorem B64.ofInt_mul_exact (a b : Int) (ha : |a| ≤ 2 ^ 53) (hb : |b| ≤ 2 ^ 53)
    (hab : |a * b| ≤ 2 ^ 53) :
    B64.ofInt a * B64.ofInt b
      = B64.fin (xor (decide (a < 0)) (decide (b < 0))) (((a * b).natAbs : Nat) : ℚ) := by
  rw [B64.ofInt_exact a ha, B64.ofInt_exact b hb, B64.mul_fin_fin]
  have hk : (a * b).natAbs ≤ 2 ^ 53 := by
    have : ((a * b).natAbs : Int) ≤ 2 ^ 53 := by rw [← Int.abs_eq_natAbs]; exact hab
    exact_mod_cast this
  have hmul : ((a.natAbs : Nat) : ℚ) * ((b.natAbs : Nat) : ℚ)
      = (((a * b).natAbs : Nat) : ℚ) := by
    rw [Int.natAbs_mul]; push_cast; rfl
  rw [hmul, B64.round_natCast _ _ hk]

/-! ## Swimming speed on machine numbers -/

/-- Claim C12 refuted as stated: for a pool of 94906267 m swum 94906267 times in one hour
the `float64` product is not the exact product `94906267 × 94906267`, and the speed is not
the `float64` nearest to the exact `(L × C / 1000) / t`. -/
theorem swimmingMeanSpeed_product_rounded :
    B64.beq (B64.ofRat 1) (B64.ofRat 0) = false
    ∧ B64.ofInt 94906267 * B64.ofInt 94906267 = B64.fin false 9007199515875288
    ∧ (94906267 * 94906267 : Int) = 9007199515875289
    ∧ Ieee.swimmingMeanSpeed 94906267 94906267 (B64.ofRat 1)
        ≠ B64.ofRat (((94906267 * 94906267 : Int) : ℚ) / 1000 / 1)
    ∧ Ieee.swimmingMeanSpeed 94906267 94906267 (B64.ofRat 1)
        ≠ B64.fin false (((94906267 * 94906267 : Int) : ℚ) / 1000 / 1) := by
  decide!

/-- Claim C12 as amended: for every pool length `L`, lap count `C` and every duration `t`
with `t == 0` false, `swimmingMeanSpeed(L, C, t)` is `float64(L) × float64(C) / 1000 / t`
as `float64` evaluates it.  The counts are converted before the product, so that it does
not wrap around and the quotient by 1000 is not truncated; the product is the exact `L × C`
whenever `L`, `C` and `L × C` are within `2^53` in magnitude, and is rounded beyond. -/
theorem swimmingMeanSpeed_rounded_formula :
    (∀ (L C : Int) (t : B64), B64.beq t (B64.ofRat 0) = false →
      Ieee.swimmingMeanSpeed L C t = B64.ofInt L * B64.ofInt C / B64.ofRat 1000 / t)
    ∧ (∀ (L C : Int) (t : B64), B64.beq t (B64.ofRat 0) = false →
        |L| ≤ 2 ^ 53 → |C| ≤ 2 ^ 53 → |L * C| ≤ 2 ^ 53 →
        Ieee.swimmingMeanSpeed L C t
          = B64.fin (xor (decide (L < 0)) (decide (C < 0))) (((L * C).natAbs : Nat) : ℚ)
              / B64.ofRat 1000 / t)
    ∧ Ieee.swimmingMeanSpeed 25 30 (B64.ofRat 1) = B64.fin false (3 / 4)
    ∧ Ieee.swimmingMeanSpeed (2 ^ 32) (2 ^ 32) (B64.ofRat 1)
        = B64.ofRat (2 ^ 64 / 1000) := by
  have key : ∀ (L C : Int) (t : B64), B64.beq t (B64.ofRat 0) = false →
      Ieee.swimmingMeanSpeed L C t = B64.ofInt L * B64.ofInt C / B64.ofRat 1000 / t := by
    intro L C t ht
    unfold Ieee.swimmingMeanSpeed
    rw [ht]
    rfl
  refine ⟨key, ?_, by decide!, by decide!⟩
  intro L C t ht hL hC hLC
  rw [key L C t ht, B64.ofInt_mul_exact L C hL hC hLC]

/-- Witness of C12 as amended: 40 lengths of a 25 m pool in 2 hours. -/
theorem swimmingMeanSpeed_rounded_formula_witness :
    (B64.beq (B64.ofRat 2) (B64.ofRat 0) = false ∧ |(25 : Int)| ≤ 2 ^ 53
      ∧ |(40 : Int)| ≤ 2 ^ 53 ∧ |(25 * 40 : Int)| ≤ 2 ^ 53)
    ∧ Ieee.swimmingMeanSpeed 25 40 (B64.ofRat 2)
        = B64.fin (xor (decide ((25 : Int) < 0)) (decide ((40 : Int) < 0)))
            ((((25 : Int) * 40).natAbs : Nat) : ℚ) / B64.ofRat 1000 / B64.ofRat 2 :=
  ⟨⟨by decide!, by decide, by decide, by decide⟩,
    swimmingMeanSpeed_rounded_formula.2.1 25 40 (B64.ofRat 2) (by decide!) (by decide)
      (by decide) (by decide)⟩

/-! ## Signs of machine numbers -/

/-- A rounding with a clear sign bit has a clear sign bit. -/
theorem B64.signClear_round (q : ℚ) : (B64.round false q).signClear = true := by
  rcases B64.round_cases false q with ⟨v, hv, h⟩ | h
  · rw [h]; simp [B64.signClear, hv]
  · rw [h]; rfl

/-- The conversion of a rational that is not negative has a clear sign bit. -/
theorem B64.signClear_ofRat (q : ℚ) (hq : 0 ≤ q) : (B64.ofRat q).signClear = true := by
  unfold B64.ofRat
  rw [decide_eq_false (not_lt.mpr hq)]
  exact B64.signClear_round _

/-- The shape of a value with a clear sign bit. -/
theorem B64.signClear_cases (x : B64) (hx : x.signClear = true) :
    x = B64.nan ∨ x = B64.inf false ∨ ∃ a : ℚ, 0 ≤ a ∧ x = B64.fin false a := by
  cases x with
  | nan => exact Or.inl rfl
  | inf s =>
    cases s
    · exact Or.inr (Or.inl rfl)
    · simp [B64.signClear] at hx
  | fin s a =>
    cases s
    · right; right
      simp [B64.signClear] at hx
      exact ⟨a, hx, rfl⟩
    · simp [B64.signClear] at hx

/-- The shape of a value that is not negative. -/
theorem B64.notNegative_cases (x : B64) (hx : x.notNegative = true) :
    x = B64.nan ∨ x = B64.inf false ∨ (∃ s : Bool, x = B64.fin s 0)
      ∨ ∃ a : ℚ, 0 < a ∧ x = B64.fin false a := by
  cases x with
  | nan => exact Or.inl rfl
  | inf s =>
    cases s
    · exact Or.inr (Or.inl rfl)
    · simp [B64.notNegative] at hx
  | fin s a =>
    simp only [B64.notNegative, Bool.and_eq_true, decide_eq_true_eq, Bool.or_eq_true,
      Bool.not_eq_true'] at hx
    obtain ⟨ha, hsa⟩ := hx
    by_cases h0 : a = 0
    · subst h0
      exact Or.inr (Or.inr (Or.inl ⟨s, rfl⟩))
    · rcases hsa with hs | hs
      · subst hs
        exact Or.inr (Or.inr (Or.inr ⟨a, lt_of_le_of_ne ha (Ne.symm h0), rfl⟩))
      · exact absurd hs h0

/-- A clear sign bit makes a value not negative. -/
theorem B64.notNegative_of_signClear (x : B64) (hx : x.signClear = true) :
    x.notNegative = true := by
  rcases B64.signClear_cases x hx with h | h | ⟨a, ha, h⟩ <;> subst h
  · rfl
  · rfl
  · simp [B64.notNegative, ha]

/-- Go's `x < 0` is false for a value that is not negative. -/
theorem B64.lt_zero_of_notNegative (x : B64) (hx : x.notNegative = true) :
    B64.lt x (B64.fin false 0) = false := by
  rcases B64.notNegative_cases x hx with h | h | ⟨s, h⟩ | ⟨a, ha, h⟩ <;> subst h
  · rfl
  · rfl
  · cases s <;> simp [B64.lt, B64.signed]
  · simp [B64.lt, B64.signed, ha.le]

/-- The product of two values with a clear sign bit has a clear sign bit. -/
theorem B64.signClear_mul (x y : B64) (hx : x.signClear = true) (hy : y.signClear = true) :
    (x * y).signClear = true := by
  rcases B64.signClear_cases x hx with h | h | ⟨a, ha, h⟩ <;> subst h <;>
    rcases B64.signClear_cases y hy with h | h | ⟨b, hb, h⟩ <;> subst h
  all_goals first
    | rfl
    | exact B64.signClear_round _
    | (rw [B64.inf_mul_fin]; split_ifs <;> rfl)
    | (rw [B64.fin_mul_inf]; split_ifs <;> rfl)

/-- The quotient of two values with a clear sign bit has a clear sign bit. -/
theorem B64.signClear_div (x y : B64) (hx : x.signClear = true) (hy : y.signClear = true) :
    (x / y).signClear = true := by
  rcases B64.signClear_cases x hx with h | h | ⟨a, ha, h⟩ <;> subst h <;>
    rcases B64.signClear_cases y hy with h | h | ⟨b, hb, h⟩ <;> subst h
  all_goals first
    | rfl
    | (rw [B64.div_fin_fin_all]
       split_ifs
       · rfl
       · rfl
       · exact B64.signClear_round _)

/-- The sum of two values with a clear sign bit has a clear sign bit. -/
theorem B64.signClear_add (x y : B64) (hx : x.signClear = true) (hy : y.signClear = true) :
    (x + y).signClear = true := by
  rcases B64.signClear_cases x hx with h | h | ⟨a, ha, h⟩ <;> subst h <;>
    rcases B64.signClear_cases y hy with h | h | ⟨b, hb, h⟩ <;> subst h
  all_goals first
    | rfl
    | (rw [B64.add_fin_fin]
       simp only [B64.signed, Bool.false_eq_true, if_false]
       split_ifs
       · rfl
       · exact B64.signClear_ofRat _ (add_nonneg ha hb))

/-- The value of `math.Pow(x, 2)` has a clear sign bit. -/
theorem B64.signClear_mathPow2 (x : B64) : (B64.mathPow2 x).signClear = true := by
  cases x with
  | nan => rfl
  | inf s => rfl
  | fin s a =>
    rw [B64.mathPow2_fin]
    split_ifs
    · rfl
    · exact B64.signClear_round _

/-- The product of two values that are not negative is not negative. -/
theorem B64.notNegative_mul (x y : B64) (hx : x.notNegative = true)
    (hy : y.notNegative = true) : (x * y).notNegative = true := by
  rcases B64.notNegative_cases x hx with h | h | ⟨s, h⟩ | ⟨a, ha, h⟩ <;> subst h <;>
    rcases B64.notNegative_cases y hy with h | h | ⟨t, h⟩ | ⟨b, hb, h⟩ <;> subst h
  all_goals first
    | rfl
    | (rw [B64.zero_mul_fin]; simp [B64.notNegative])
    | (rw [B64.fin_mul_zero]; simp [B64.notNegative])
    | exact B64.notNegative_of_signClear _ (B64.signClear_round _)
    | (rw [B64.inf_mul_fin]; split_ifs <;> rfl)
    | (rw [B64.fin_mul_inf]; split_ifs <;> rfl)

/-! ## Inputs that are machine numbers -/

/-- A finite `float64` has a magnitude that is not negative and below `2^1024`. -/
theorem B64.mag_bounds_of_isFloat64 (s : Bool) (a : ℚ)
    (h : (B64.fin s a).isFloat64 = true) : 0 ≤ a ∧ a < B64.pow2 1024 := by
  simp only [B64.isFloat64, Bool.and_eq_true, decide_eq_true_eq] at h
  obtain ⟨h0, hr⟩ := h
  refine ⟨h0, ?_⟩
  by_cases hz : a ≤ 0
  · exact lt_of_le_of_lt hz (B64.pow2_pos _)
  · by_contra hcon
    have hnear : B64.pow2 1024 ≤ B64.nearest a ∨ B64.nearest a < B64.pow2 1024 :=
      le_or_lt _ _
    rcases hnear with hn | hn
    · unfold B64.round at hr
      rw [if_neg hz, if_pos hn] at hr
      exact B64.noConfusion hr
    · rw [B64.round_of_lt s a (not_le.mp hz) hn] at hr
      injection hr with _ hv
      rw [hv] at hn
      exact hcon hn

/-- A `float64` with `0 <= x` is not negative and is not `NaN`. -/
theorem B64.notNegative_of_le (x : B64) (hx : x.isFloat64 = true)
    (hle : B64.le (B64.fin false 0) x = true) : x.notNegative = true ∧ x ≠ B64.nan := by
  cases x with
  | nan => simp [B64.le] at hle
  | inf s =>
    cases s
    · exact ⟨rfl, fun h => B64.noConfusion h⟩
    · simp [B64.le] at hle
  | fin s a =>
    obtain ⟨h0, _⟩ := B64.mag_bounds_of_isFloat64 s a hx
    refine ⟨?_, fun h => B64.noConfusion h⟩
    cases s
    · simp [B64.notNegative, h0]
    · simp only [B64.le, B64.signed, Bool.false_eq_true, if_false, if_true,
        decide_eq_true_eq] at hle
      have : a = 0 := by linarith
      simp [B64.notNegative, this]

/-- A `float64` with `0 < x` is `+Inf` or a finite value with a clear sign bit and a
positive magnitude. -/
theorem B64.pos_cases (x : B64) (hx : x.isFloat64 = true)
    (hlt : B64.lt (B64.fin false 0) x = true) :
    x = B64.inf false ∨ ∃ a : ℚ, 0 < a ∧ a < B64.pow2 1024 ∧ x = B64.fin false a := by
  cases x with
  | nan => simp [B64.lt] at hlt
  | inf s =>
    cases s
    · exact Or.inl rfl
    · simp [B64.lt] at hlt
  | fin s a =>
    obtain ⟨h0, h1⟩ := B64.mag_bounds_of_isFloat64 s a hx
    right
    cases s
    · simp only [B64.lt, B64.signed, Bool.false_eq_true, if_false,
        decide_eq_true_eq] at hlt
      exact ⟨a, hlt, h1, rfl⟩
    · simp only [B64.lt, B64.signed, Bool.false_eq_true, if_false, if_true,
        decide_eq_true_eq] at hlt
      linarith

/-- A `float64` with `0 < x` has a clear sign bit. -/
theorem B64.signClear_of_pos (x : B64) (hx : x.isFloat64 = true)
    (hlt : B64.lt (B64.fin false 0) x = true) : x.signClear = true := by
  rcases B64.pos_cases x hx hlt with h | ⟨a, ha, _, h⟩ <;> subst h
  · rfl
  · simp [B64.signClear, ha.le]

/-- The constants of the program have a clear sign bit. -/
theorem Ieee.signClear_constants :
    Ieee.lenStep.signClear = true ∧ Ieee.mInKm.signClear = true
    ∧ Ieee.minInH.signClear = true ∧ Ieee.kmhInMSec.signClear = true
    ∧ Ieee.runningCaloriesMeanSpeedMultiplier.signClear = true
    ∧ Ieee.runningCaloriesMeanSpeedShift.signClear = true
    ∧ Ieee.walkingCaloriesWeightMultiplier.signClear = true
    ∧ Ieee.walkingSpeedHeightMultiplier.signClear = true
    ∧ Ieee.swimmingCaloriesMeanSpeedShift.signClear = true
    ∧ Ieee.swimmingCaloriesWeightMultiplier.signClear = true
    ∧ (B64.ofRat 100).signClear = true := by
  decide!

/-- A finite value with a clear sign bit, over a duration with `0 <= duration` that
`meanSpeed` does not take for zero: the quotient is `+Inf` or finite with a clear sign
bit. -/
theorem Ieee.speed_cases (x : ℚ) (d : B64) (hd : d.isFloat64 = true)
    (hle : B64.le (B64.fin false 0) d = true) :
    (if B64.beq d (B64.ofRat 0) then B64.ofRat 0 else B64.fin false x / d) = B64.inf false
    ∨ ∃ a : ℚ, 0 ≤ a
        ∧ (if B64.beq d (B64.ofRat 0) then B64.ofRat 0 else B64.fin false x / d)
            = B64.fin false a := by
  cases d with
  | nan => simp [B64.le] at hle
  | inf s =>
    cases s
    · right
      exact ⟨0, le_refl 0, by rw [B64.ofRat_zero]; rfl⟩
    · simp [B64.le] at hle
  | fin s a =>
    obtain ⟨h0, _⟩ := B64.mag_bounds_of_isFloat64 s a hd
    by_cases ha : a = 0
    · subst ha
      right
      exact ⟨0, le_refl 0, by rw [B64.beq_zero, if_pos rfl, B64.ofRat_zero]⟩
    · have hs : s = false := by
        cases s
        · rfl
        · simp only [B64.le, B64.signed, Bool.false_eq_true, if_false, if_true,
            decide_eq_true_eq] at hle
          exact absurd (le_antisymm (by linarith) h0) ha
      subst hs
      rw [B64.beq_zero_of_ne false a ha]
      simp only [Bool.false_eq_true, if_false]
      rw [B64.div_fin_fin _ _ _ _ ha]
      rcases B64.round_cases (xor false false) (x / a) with ⟨v, hv, h⟩ | h
      · exact Or.inr ⟨v, hv, h⟩
      · exact Or.inl h

/-- Go's `0 <= x` holds for `+Inf` and for a finite value with a clear sign bit. -/
theorem B64.le_zero_of_cases (x : B64)
    (h : x = B64.inf false ∨ ∃ a : ℚ, 0 ≤ a ∧ x = B64.fin false a) :
    B64.le (B64.fin false 0) x = true := by
  rcases h with h | ⟨a, ha, h⟩ <;> subst h
  · rfl
  · simp [B64.le, B64.signed, ha]

/-- The same shape gives a clear sign bit. -/
theorem B64.signClear_of_cases (x : B64)
    (h : x = B64.inf false ∨ ∃ a : ℚ, 0 ≤ a ∧ x = B64.fin false a) :
    x.signClear = true := by
  rcases h with h | ⟨a, ha, h⟩ <;> subst h
  · rfl
  · simp [B64.signClear, ha]

/-! ## Signs of the pipelines -/

/-- The distance of a count that is not negative is finite with a clear sign bit. -/
theorem Ieee.distance_nonneg (n : Int) (h0 : 0 ≤ n) (h63 : n < 2 ^ 63) :
    ∃ x : ℚ, 0 ≤ x ∧ Ieee.distance n = B64.fin false x := by
  have habs : |n| ≤ 2 ^ 63 := by rw [abs_of_nonneg h0]; omega
  obtain ⟨v, hv, lo, _⟩ := Ieee.distance_shape n habs
  have hq : (0 : ℚ) ≤ (n : ℚ) := by exact_mod_cast h0
  have hs : decide ((n : ℚ) < 0) = false := by simp [not_lt.mpr hq]
  rw [hs] at hv
  refine ⟨v, le_trans ?_ lo, hv⟩
  have : (0 : ℚ) ≤ |(n : ℚ)| := abs_nonneg _
  have h1 : (0 : ℚ) ≤ 1 - 1 / 2 ^ 50 := by norm_num
  positivity

/-- The conversion of a count that is not negative is finite with a clear sign bit. -/
theorem B64.ofInt_nonneg (n : Int) (h0 : 0 ≤ n) (h63 : n < 2 ^ 63) :
    ∃ x : ℚ, 0 ≤ x ∧ x ≤ B64.pow2 63 ∧ B64.ofInt n = B64.fin false x := by
  have hq : (0 : ℚ) ≤ (n : ℚ) := by exact_mod_cast h0
  have hs : decide ((n : ℚ) < 0) = false := by simp [not_lt.mpr hq]
  have hle : |(n : ℚ)| ≤ B64.pow2 63 := by
    have hp : B64.pow2 63 = 2 ^ 63 := by rw [B64.pow2_eq_zpow]; norm_num
    rw [abs_of_nonneg hq, hp]
    exact_mod_cast h63.le
  obtain ⟨v, hv, hv0, hv1⟩ := B64.round_le_pow2 false |(n : ℚ)| 63 hle (by norm_num)
    (by norm_num)
  refine ⟨v, hv0, hv1, ?_⟩
  unfold B64.ofInt B64.ofRat
  rw [hs, hv]

/-- The pool length times the lap count over 1000 is finite with a clear sign bit. -/
theorem Ieee.pool_distance_nonneg (L C : Int) (hL : 0 ≤ L) (hL63 : L < 2 ^ 63)
    (hC : 0 ≤ C) (hC63 : C < 2 ^ 63) :
    ∃ x : ℚ, 0 ≤ x ∧ B64.ofInt L * B64.ofInt C / Ieee.mInKm = B64.fin false x := by
  obtain ⟨l, hl0, hl1, hl⟩ := B64.ofInt_nonneg L hL hL63
  obtain ⟨c, hc0, hc1, hc⟩ := B64.ofInt_nonneg C hC hC63
  have hprod : l * c ≤ B64.pow2 126 := by
    have : B64.pow2 126 = B64.pow2 63 * B64.pow2 63 := by
      rw [← B64.pow2_add]; rfl
    rw [this]
    exact mul_le_mul hl1 hc1 hc0 (B64.pow2_pos 63).le
  obtain ⟨p, hp, hp0, hp1⟩ := B64.round_le_pow2 (xor false false) (l * c) 126 hprod
    (by norm_num) (by norm_num)
  have hquot : p / 1000 ≤ B64.pow2 126 := by
    refine le_trans ?_ hp1
    rw [div_le_iff₀ (by norm_num)]
    nlinarith
  obtain ⟨x, hx, hx0, _⟩ := B64.round_le_pow2 (xor false false) (p / 1000) 126 hquot
    (by norm_num) (by norm_num)
  refine ⟨x, hx0, ?_⟩
  rw [hl, hc, B64.mul_fin_fin, hp, Ieee.mInKm_eq, B64.div_fin_fin _ _ _ _ (by norm_num)]
  exact hx

/-- Claim C19 refuted as stated: swimming with duration 0 and weight 1e308 meets the
preconditions of the data model, and the calories are `NaN`, which is not `>= 0`. -/
theorem swimming_calories_nan :
    (B64.le (B64.fin false 0) (B64.fin false 0) = true
      ∧ B64.lt (B64.fin false 0) (B64.ofRat 1e308) = true
      ∧ B64.lt (B64.fin false 0) (B64.ofRat 185) = true
      ∧ (B64.ofRat 1e308).isFloat64 = true)
    ∧ Ieee.swimmingSpentCalories (B64.fin false 0) (B64.ofRat 1e308)
        (Ieee.swimmingMeanSpeed 50 10 (B64.fin false 0)) = B64.nan
    ∧ B64.le (B64.fin false 0) B64.nan = false
    ∧ Ieee.showTrainingInfo 4000 "Плавание" (B64.fin false 0) (B64.ofRat 1e308)
        (B64.ofRat 185) 50 10
        = "Тип тренировки: Плавание\nДлительность: 0.00 ч.\nДистанция: 2.60 км.\nСкорость: 0.00 км/ч\nСожгли калорий: NaN\n" := by
  decide!

/-- Claim C19 as amended: under the preconditions of the data model (action ≥ 0,
duration ≥ 0, weight > 0, height > 0, lengthPool > 0, countPool ≥ 0, the counts being 64-bit
`int` values and the others `float64` values), for each of the three recognised training
types the distance and the speed are `>= 0` and the calories are never negative: Go's
`calories < 0` is false, the calories being `>= 0` or `NaN`. -/
theorem pipeline_values_not_negative (action : Int) (duration weight height : B64)
    (lengthPool countPool : Int)
    (ha : 0 ≤ action) (ha63 : action < 2 ^ 63)
    (hL : 0 < lengthPool) (hL63 : lengthPool < 2 ^ 63)
    (hC : 0 ≤ countPool) (hC63 : countPool < 2 ^ 63)
    (hd : duration.isFloat64 = true) (hw : weight.isFloat64 = true)
    (hh : height.isFloat64 = true)
    (hd0 : B64.le (B64.fin false 0) duration = true)
    (hw0 : B64.lt (B64.fin false 0) weight = true)
    (hh0 : B64.lt (B64.fin false 0) height = true) :
    (B64.le (B64.fin false 0) (Ieee.distance action) = true
      ∧ B64.le (B64.fin false 0) (Ieee.meanSpeed (Ieee.distance action) duration) = true
      ∧ B64.lt (Ieee.runningSpentCalories weight duration
            (Ieee.meanSpeed (Ieee.distance action) duration)) (B64.fin false 0) = false)
    ∧ (B64.le (B64.fin false 0) (Ieee.distance action) = true
      ∧ B64.le (B64.fin false 0) (Ieee.meanSpeed (Ieee.distance action) duration) = true
      ∧ B64.lt (Ieee.walkingSpentCalories duration weight height
            (Ieee.meanSpeed (Ieee.distance action) duration)) (B64.fin false 0) = false)
    ∧ (B64.le (B64.fin false 0) (Ieee.distance action) = true
      ∧ B64.le (B64.fin false 0)
          (Ieee.swimmingMeanSpeed lengthPool countPool duration) = true
      ∧ B64.lt (Ieee.swimmingSpentCalories duration weight
            (Ieee.swimmingMeanSpeed lengthPool countPool duration))
          (B64.fin false 0) = false) := by
  obtain ⟨x, hx0, hx⟩ := Ieee.distance_nonneg action ha ha63
  obtain ⟨p, hp0, hp⟩ := Ieee.pool_distance_nonneg lengthPool countPool hL.le hL63 hC hC63
  obtain ⟨c1, c2, c3, c4, c5, c6, c7, c8, c9, c10, c11⟩ := Ieee.signClear_constants
  -- the values
  have hdist : B64.le (B64.fin false 0) (Ieee.distance action) = true :=
    B64.le_zero_of_cases _ (Or.inr ⟨x, hx0, hx⟩)
  have hspeedc := Ieee.speed_cases x duration hd hd0
  have hspeed_eq : Ieee.meanSpeed (Ieee.distance action) duration
      = (if B64.beq duration (B64.ofRat 0) then B64.ofRat 0 else B64.fin false x / duration) := by
    unfold Ieee.meanSpeed
    rw [hx]
  have hswimc := Ieee.speed_cases p duration hd hd0
  have hswim_eq : Ieee.swimmingMeanSpeed lengthPool countPool duration
      = (if B64.beq duration (B64.ofRat 0) then B64.ofRat 0 else B64.fin false p / duration) := by
    unfold Ieee.swimmingMeanSpeed
    rw [hp]
  rw [← hspeed_eq] at hspeedc
  rw [← hswim_eq] at hswimc
  have hspeed := B64.le_zero_of_cases _ hspeedc
  have hswim := B64.le_zero_of_cases _ hswimc
  have sSpeed := B64.signClear_of_cases _ hspeedc
  have sSwim := B64.signClear_of_cases _ hswimc
  have sW := B64.signClear_of_pos weight hw hw0
  have sH := B64.signClear_of_pos height hh hh0
  have nD := (B64.notNegative_of_le duration hd hd0).1
  have nn60 := B64.notNegative_of_signClear _ c3
  refine ⟨⟨hdist, hspeed, ?_⟩, ⟨hdist, hspeed, ?_⟩, ⟨hdist, hswim, ?_⟩⟩
  · apply B64.lt_zero_of_notNegative
    unfold Ieee.runningSpentCalories
    apply B64.notNegative_mul _ _ _ nn60
    apply B64.notNegative_mul _ _ _ nD
    apply B64.notNegative_of_signClear
    apply B64.signClear_div _ _ _ c2
    apply B64.signClear_mul _ _ _ sW
    apply B64.signClear_mul _ _ _ c6
    exact B64.signClear_mul _ _ c5 sSpeed
  · apply B64.lt_zero_of_notNegative
    unfold Ieee.walkingSpentCalories
    apply B64.notNegative_mul _ _ _ nn60
    apply B64.notNegative_mul _ _ _ nD
    apply B64.notNegative_of_signClear
    apply B64.signClear_add
    · exact B64.signClear_mul _ _ c7 sW
    · apply B64.signClear_mul _ _ _ sW
      apply B64.signClear_mul _ _ _ c8
      apply B64.signClear_div
      · exact B64.signClear_mathPow2 _
      · exact B64.signClear_div _ _ sH c11
  · apply B64.lt_zero_of_notNegative
    unfold Ieee.swimmingSpentCalories
    apply B64.notNegative_mul _ _ _ nD
    apply B64.notNegative_of_signClear
    apply B64.signClear_mul _ _ _ sW
    apply B64.signClear_mul _ _ _ c10
    exact B64.signClear_add _ _ sSwim c9

/-- Witness of C19 as amended: 4000 actions in one hour at 85 kg and 185 cm, a 50 m pool
swum 10 times. -/
theorem pipeline_values_not_negative_witness :
    B64.le (B64.fin false 0) (Ieee.distance 4000) = true
    ∧ B64.le (B64.fin false 0) (Ieee.meanSpeed (Ieee.distance 4000) (B64.ofRat 1)) = true
    ∧ B64.lt (Ieee.runningSpentCalories (B64.ofRat 85) (B64.ofRat 1)
          (Ieee.meanSpeed (Ieee.distance 4000) (B64.ofRat 1))) (B64.fin false 0) = false :=
  (pipeline_values_not_negative 4000 (B64.ofRat 1) (B64.ofRat 85) (B64.ofRat 185) 50 10
    (by decide) (by decide) (by decide) (by decide) (by decide) (by decide)
    (by decide!) (by decide!) (by decide!) (by decide!) (by decide!) (by decide!)).1

/-! ## Zero duration on machine numbers -/

end Ftracker
